import Mathlib

/-!
Verification development for the fluxbox client/window object model
(src/WinClient.cc and src/Window.cc).

Conventions of the shallow embedding:
* C `int` arithmetic is modelled by `Int`; the explicit C casts
  `static_cast<signed>(u)` of 32-bit unsigned fields are modelled by
  `asSigned`, and places where C implicitly converts an `int` result to
  `unsigned int` (usual arithmetic conversions) are modelled by `uwrap` /
  `i32wrap`.
* C `unsigned int` values are modelled by `Nat` (callers keep them below
  `2^32`; hypotheses of the theorems record this where it matters).
* C truncating integer division (round toward zero) is `Int.tdiv`.
* C `double` computations are modelled by exact fraction arithmetic
  (`Frac`, numerator/denominator pairs over `Int`, never normalised, so
  every operation reduces in the kernel): the real-number idealisation of
  floating point.  A `(int)` cast of a double is `Frac.trunc`.
* Pointers are modelled by `Option` of an identifier (an X `Window`
  handle, `Nat`); the null pointer is `none`.
-/

/-- Modulus of 32-bit unsigned arithmetic. -/
def UINT32 : Nat := 4294967296

/-- Half modulus, the first value that wraps to a negative `int`. -/
def INTMIN32 : Nat := 2147483648

/-- Value of a C `int` obtained by converting an integer expression:
two's-complement wrap-around into `[-2^31, 2^31)`. -/
def i32wrap (z : Int) : Int := (z + INTMIN32) % UINT32 - INTMIN32

/-- Value of `static_cast<signed>(u)` for a 32-bit unsigned value `u`
(modelled as `Nat`). -/
def asSigned (u : Nat) : Int := i32wrap u

/-- Value of a C expression of unsigned type obtained from an `int`
operand by the usual arithmetic conversions (wrap into `[0, 2^32)`). -/
def uwrap (z : Int) : Nat := (z % UINT32).toNat

/-- Unsigned 32-bit subtraction `a - b` as C computes it for values
below `2^32`. -/
def usub32 (a b : Nat) : Nat := (a + UINT32 - b % UINT32) % UINT32

/-- Exact fraction: the model of a C `double` value.  The denominator of
every fraction built by the operations below from integer inputs is
positive; fractions are never normalised, so all arithmetic is by
structural kernel reduction. -/
structure Frac where
  num : Int
  den : Int
deriving DecidableEq, Repr

/-- Fraction with denominator sign normalised to be nonnegative. -/
def mkFrac (n d : Int) : Frac := if d < 0 then ⟨-n, -d⟩ else ⟨n, d⟩

/-- Embedding of an integer value into the double model
(`static_cast<double>`). -/
def intF (z : Int) : Frac := ⟨z, 1⟩

instance : Add Frac := ⟨fun a b => ⟨a.num * b.den + b.num * a.den, a.den * b.den⟩⟩

instance : Mul Frac := ⟨fun a b => ⟨a.num * b.num, a.den * b.den⟩⟩

instance : Div Frac := ⟨fun a b => mkFrac (a.num * b.den) (a.den * b.num)⟩

instance : OfNat Frac 1 := ⟨⟨1, 1⟩⟩

instance : OfNat Frac 0 := ⟨⟨0, 1⟩⟩

/-- Strict comparison of two fractions (correct whenever both
denominators are positive, which holds on every path the embedded code
takes). -/
def Frac.blt (a b : Frac) : Bool := a.num * b.den < b.num * a.den

/-- Truncation of a double toward zero: the C `static_cast<int>`. -/
def Frac.trunc (a : Frac) : Int := a.num.tdiv a.den

/-- Direct model of `closestPointToLine` (WinClient.cc lines 704-712):
orthogonal projection of a point onto the line through the origin with
the given gradient. -/
def closestPointToLine (point_x point_y gradient : Frac) : Frac × Frac :=
  let u : Frac := (point_x * gradient + point_y) / (gradient * gradient + 1)
  (u * gradient, u)

/-- Size-hint snapshot `m_size_hints` of a WinClient; all fields are
32-bit unsigned integers (the header declares them unsigned: the code
reads them through `static_cast<signed>`). -/
structure SizeHints where
  min_width : Nat
  min_height : Nat
  max_width : Nat
  max_height : Nat
  width_inc : Nat
  height_inc : Nat
  base_width : Nat
  base_height : Nat
  min_aspect_x : Nat
  min_aspect_y : Nat
  max_aspect_x : Nat
  max_aspect_y : Nat
deriving DecidableEq, Repr

/-- Size hints as initialised by the `WinClient` constructor
(WinClient.cc lines 85-91). -/
def SizeHints.ctorDefault : SizeHints :=
  { min_width := 1, min_height := 1, max_width := 0, max_height := 0,
    width_inc := 1, height_inc := 1, base_width := 1, base_height := 1,
    min_aspect_x := 0, min_aspect_y := 0, max_aspect_x := 0, max_aspect_y := 0 }

/-- Direct model of `WinClient::applySizeHints` (WinClient.cc lines
724-823) on the size-hint set `sh`.  Inputs are the C `int` reference
parameters `width`/`height` and the `maximizing` flag; the result is the
final `(width, height)` together with the cell counts `(i, j)` that the
code reports through `display_width`/`display_height`.  Doubles are the
exact fractions described above. -/
def applySizeHints (sh : SizeHints) (width height : Int) (maximizing : Bool) :
    Int × Int × Int × Int :=
  -- check minimum size
  let width := if width < 0 ∨ width < asSigned sh.min_width then asSigned sh.min_width else width
  let height := if height < 0 ∨ height < asSigned sh.min_height then asSigned sh.min_height else height
  -- check maximum size (the guard `m_size_hints.max_width > 0` is an
  -- unsigned comparison, i.e. `≠ 0`)
  let width := if 0 < sh.max_width ∧ asSigned sh.max_width < width then asSigned sh.max_width else width
  let height := if 0 < sh.max_height ∧ asSigned sh.max_height < height then asSigned sh.max_height else height
  -- aspect ratios (applied before incrementals); in the guard
  -- `(height - m_size_hints.base_height) > 0` the subtraction is
  -- performed in unsigned arithmetic, so the condition is `≠ 0`; the
  -- same conversion feeds `widthd`/`heightd`
  let wh :=
    if 0 < sh.min_aspect_y ∧ 0 < sh.max_aspect_y ∧ 0 < uwrap (height - sh.base_height) then
      let widthd : Frac := intF (uwrap (width - sh.base_width))
      let heightd : Frac := intF (uwrap (height - sh.base_height))
      let minA : Frac := intF sh.min_aspect_x / intF sh.min_aspect_y
      let maxA : Frac := intF sh.max_aspect_x / intF sh.max_aspect_y
      let actual : Frac := widthd / heightd
      if (Frac.blt 0 maxA ∧ Frac.blt 0 minA ∧ Frac.blt 0 actual) then
        if Frac.blt actual minA then
          -- changed = true
          let wd_hd : Frac × Frac :=
            if maximizing then (widthd, widthd / minA)
            else closestPointToLine widthd heightd minA
          -- the write-back `width = static_cast<int>(widthd) + base_width`
          -- adds an unsigned operand and stores into an int: wrap
          (i32wrap (wd_hd.1.trunc + sh.base_width), i32wrap (wd_hd.2.trunc + sh.base_height))
        else if Frac.blt maxA actual then
          let wd_hd : Frac × Frac :=
            if maximizing then (heightd * maxA, heightd)
            else closestPointToLine widthd heightd maxA
          (i32wrap (wd_hd.1.trunc + sh.base_width), i32wrap (wd_hd.2.trunc + sh.base_height))
        else (width, height)
      else (width, height)
    else (width, height)
  let width := wh.1
  let height := wh.2
  -- enforce incremental size limits, wrt base size (explicit signed casts)
  let i := (width - asSigned sh.base_width).tdiv (asSigned sh.width_inc)
  let width := i * asSigned sh.width_inc + asSigned sh.base_width
  let j := (height - asSigned sh.base_height).tdiv (asSigned sh.height_inc)
  let height := j * asSigned sh.height_inc + asSigned sh.base_height
  (width, height, i, j)

/-- Direct model of `WinClient::checkSizeHints` (WinClient.cc lines
826-848).  `width` and `height` are the unsigned parameters (values
below `2^32`); all comparisons and the `%` are unsigned; the aspect test
uses doubles, modelled as exact fractions. -/
def checkSizeHints (sh : SizeHints) (width height : Nat) : Bool :=
  if width < sh.min_width ∨ height < sh.min_height then false
  else if sh.max_width < width ∨ sh.max_height < height then false
  else if usub32 width sh.base_width % sh.width_inc ≠ 0 then false
  else if usub32 height sh.base_height % sh.height_inc ≠ 0 then false
  else
    let wdivh : Frac := intF width / intF height
    if 0 < sh.min_aspect_y ∧ Frac.blt wdivh (intF sh.min_aspect_x / intF sh.min_aspect_y) then false
    else if 0 < sh.max_aspect_y ∧ Frac.blt (intF sh.max_aspect_x / intF sh.max_aspect_y) wdivh then false
    else true

/-- Hint set of the specification scenario for `applySizeHints`:
minimum 100x50, unbounded maximum, increment 10x10, base 0x0, no aspect
constraint. -/
def SizeHints.scenario107 : SizeHints where
  min_width := 100
  min_height := 50
  max_width := 0
  max_height := 0
  width_inc := 10
  height_inc := 10
  base_width := 0
  base_height := 0
  min_aspect_x := 0
  min_aspect_y := 0
  max_aspect_x := 0
  max_aspect_y := 0

example : applySizeHints SizeHints.scenario107 107 54 false = (100, 50, 10, 5) := by decide

example : checkSizeHints SizeHints.ctorDefault 5 5 = false := by decide

/-- One dimension of the min/max clamping step of `applySizeHints`
(lines 730-742): `useMax` is the unsigned guard `max > 0`. -/
def clampDim (mn mxv : Int) (useMax : Prop) [Decidable useMax] (w : Int) : Int :=
  let w1 := if w < 0 ∨ w < mn then mn else w
  if useMax ∧ mxv < w1 then mxv else w1

/-- Cell count of the incremental quantisation step of `applySizeHints`
(lines 808-816). -/
def quantCell (base inc w : Int) : Int := (w - base).tdiv inc

/-- One dimension of the incremental quantisation step of
`applySizeHints`. -/
def quantDim (base inc w : Int) : Int := quantCell base inc w * inc + base

/-- One full dimension of `applySizeHints` when the aspect-ratio branch
is inactive: clamp, then quantise. -/
def fitDim (mn mxv : Int) (useMax : Prop) [Decidable useMax] (base inc w : Int) : Int :=
  quantDim base inc (clampDim mn mxv useMax w)

/-- Fields of a size-hint set are small enough that the C
`static_cast<signed>` is the identity. -/
def SizeHints.small (sh : SizeHints) : Prop :=
  sh.min_width < INTMIN32 ∧ sh.min_height < INTMIN32 ∧
  sh.max_width < INTMIN32 ∧ sh.max_height < INTMIN32 ∧
  sh.width_inc < INTMIN32 ∧ sh.height_inc < INTMIN32 ∧
  sh.base_width < INTMIN32 ∧ sh.base_height < INTMIN32

instance (sh : SizeHints) : Decidable sh.small := by
  unfold SizeHints.small; infer_instance

/-- Hint set with a mandatory 2:1 aspect ratio (`min_aspect = max_aspect
= (2,1)`), no other constraints: used to exhibit non-idempotence of
`applySizeHints`. -/
def SizeHints.aspect21 : SizeHints where
  min_width := 1
  min_height := 1
  max_width := 0
  max_height := 0
  width_inc := 1
  height_inc := 1
  base_width := 0
  base_height := 0
  min_aspect_x := 2
  min_aspect_y := 1
  max_aspect_x := 2
  max_aspect_y := 1

/-- Non-strict comparison of two fractions (used to state what the
negation of the code's strict double comparison means). -/
def Frac.ble (a b : Frac) : Bool := a.num * b.den ≤ b.num * a.den

/-- Reading of claim C8 taken literally from its words: width and height
lie within the min/max bounds where, as in the clamping step, a max of 0
means unbounded; they are exactly on the base-plus-increment grid; and
the width/height ratio lies within the declared aspect bounds (min bound
compared as ≤, max bound as ≥, a bound with non-positive denominator
unconstrained). -/
def checkSizeHintsClaim (sh : SizeHints) (width height : Nat) : Prop :=
  (sh.min_width ≤ width ∧ sh.min_height ≤ height) ∧
  (sh.max_width = 0 ∨ width ≤ sh.max_width) ∧
  (sh.max_height = 0 ∨ height ≤ sh.max_height) ∧
  (sh.base_width ≤ width ∧ sh.width_inc ∣ (width - sh.base_width)) ∧
  (sh.base_height ≤ height ∧ sh.height_inc ∣ (height - sh.base_height)) ∧
  (0 < sh.min_aspect_y →
    Frac.ble (intF sh.min_aspect_x / intF sh.min_aspect_y) (intF width / intF height) = true) ∧
  (0 < sh.max_aspect_y →
    Frac.ble (intF width / intF height) (intF sh.max_aspect_x / intF sh.max_aspect_y) = true)

instance (sh : SizeHints) (w h : Nat) : Decidable (checkSizeHintsClaim sh w h) := by
  unfold checkSizeHintsClaim; infer_instance

/-- State of one `WinClient` object.  `thint` is the current value of
the window's WM_TRANSIENT_FOR property as `XGetTransientForHint` would
read it (`none` = the call fails); `m_win` is the owning
`FluxboxWindow`; `validc` is whether `validateClient()` would succeed;
`group_left` is the _FLUXBOX_GROUP_LEFT property (0 = `None`). -/
structure MClient where
  thint : Option Nat := none
  transient_for : Option Nat := none
  transients : List Nat := []
  m_modal : Bool := false
  modal_count : Int := 0
  m_win : Option Nat := none
  accepts_input : Bool := true
  send_focus_message : Bool := false
  validc : Bool := true
  group_left : Nat := 0
deriving DecidableEq, Repr

/-- State of one `FluxboxWindow` (frame). -/
structure MFrame where
  m_clientlist : List Nat := []
  m_client : Option Nat := none
  iconic : Bool := false
  moving : Bool := false
  m_layernum : Int := 0
  oplock : Bool := false
  m_workspace_number : Nat := 0
deriving DecidableEq, Repr

/-- Display-server calls recorded by the model: restacking of a frame
window, restacking of a client window inside its frame (the
`FbTk::FbWindow::raise` used for tab ordering), and an input-focus
grant. -/
inductive MEvent where
  | frameRaised (f : Nat)
  | frameLowered (f : Nat)
  | clientRaised (c : Nat)
  | focusSet (c : Nat)
deriving DecidableEq, Repr

/-- Whole-system state. -/
structure St where
  clients : List (Nat × MClient) := []
  frames : List (Nat × MFrame) := []
  s_transient_wait : List (Nat × List Nat) := []
  focused : Option Nat := none
  rootWin : Nat := 0
  menuLayer : Int := 0
  currentWorkspace : Nat := 0
  focusNew : Bool := false
  log : List MEvent := []
deriving DecidableEq, Repr

def getClient (s : St) (h : Nat) : Option MClient := s.clients.lookup h

def getFrame (s : St) (f : Nat) : Option MFrame := s.frames.lookup f

def updClient (h : Nat) (g : MClient → MClient) (s : St) : St :=
  { s with clients := s.clients.map (fun kc => if kc.1 = h then (kc.1, g kc.2) else kc) }

def updFrame (f : Nat) (g : MFrame → MFrame) (s : St) : St :=
  { s with frames := s.frames.map (fun kf => if kf.1 = f then (kf.1, g kf.2) else kf) }

/-- Transient parent edge of the model: `transient_for` of a registered
client. -/
def tf (s : St) (h : Nat) : Option Nat := (getClient s h).bind (fun c => c.transient_for)

/-- Chain obtained by following `transient_for` `n` times from `h`
(`none` once a null parent pointer is reached). -/
def iterTF (s : St) : Nat → Nat → Option Nat
  | 0, h => some h
  | n + 1, h => (tf s h).bind (iterTF s n)

/-- Acyclicity of the transient relation: no chain returns to its
start. -/
def Acyc (s : St) : Prop := ∀ h n, 0 < n → iterTF s n h ≠ some h

/-- Every transient edge points at a registered client. -/
def WfEdges (s : St) : Prop := ∀ h p, tf s h = some p → (getClient s p).isSome

/-- Model of `Fluxbox::searchWindow`: the registry keys clients by their
window handle. -/
def searchWindow (s : St) (win : Nat) : Option Nat :=
  if (getClient s win).isSome then some win else none

/-- Direct model of `WinClient::removeTransientFromWaitingList`
(WinClient.cc lines 850-873): drop `self` from every waiting list, then
erase the entries whose lists are empty. -/
def removeTransientFromWaitingList (self : Nat) (s : St) : St :=
  let removed := s.s_transient_wait.map (fun kl => (kl.1, kl.2.filter (fun x => x ≠ self)))
  { s with s_transient_wait := removed.filter (fun kl => ¬ kl.2.isEmpty) }

/-- Model of `s_transient_wait[win].push_back(self)`: `operator[]`
creates the entry when absent. -/
def addTransientWait (win self : Nat) (s : St) : St :=
  if (s.s_transient_wait.lookup win).isSome then
    { s with s_transient_wait :=
        s.s_transient_wait.map (fun kl => if kl.1 = win then (kl.1, kl.2 ++ [self]) else kl) }
  else
    { s with s_transient_wait := s.s_transient_wait ++ [(win, [self])] }

/-- Model of `s_transient_wait.erase(win)`. -/
def eraseTransientWait (win : Nat) (s : St) : St :=
  { s with s_transient_wait := s.s_transient_wait.filter (fun kl => kl.1 ≠ win) }

/-- Modelled from the spec: `WinClient::addModal` (declared in
WinClient.hh, which is not under src/) increments the parent's inherited
modal-descendant count (§3 of the spec). -/
def addModal (h : Nat) (s : St) : St :=
  updClient h (fun c => { c with modal_count := c.modal_count + 1 }) s

/-- Modelled from the spec: `WinClient::removeModal` decrements the
inherited modal-descendant count. -/
def removeModal (h : Nat) (s : St) : St :=
  updClient h (fun c => { c with modal_count := c.modal_count - 1 }) s

/-- Direct model of the cycle-breaking loop of
`WinClient::updateTransientInfo` (WinClient.cc lines 331-334):

    for (WinClient *w = this; w != 0; w = w->transient_for)
        if (this == w->transient_for) w->transient_for = 0;

Clearing the edge makes the next loop read `w = 0`, so the loop stops
right after the write; the model therefore walks the chain and clears
the first edge that points back at `self`.  The C loop has no bound; the
model carries fuel, and the invariant proofs show the fuel used by
`updateTransientInfo` suffices in every reachable state. -/
def breakTransientLoop (self : Nat) : Nat → Option Nat → St → St
  | 0, _, s => s
  | _ + 1, none, s => s
  | fuel + 1, some w, s =>
    if tf s w = some self then updClient w (fun c => { c with transient_for := none }) s
    else breakTransientLoop self fuel (tf s w) s

/-- Direct model of `WinClient::updateTransientInfo` (WinClient.cc lines
275-344) for client `h`.  The hint read performed by
`XGetTransientForHint` yields the stored `thint` (failure = `none`, in
which case the function returns after unlinking, leaving any stale
wait-list entries).  `win == window()` is `win = h`; the root-window
test compares against the screen's root window. -/
def updateTransientInfo (h : Nat) (s : St) : St :=
  match getClient s h with
  | none => s
  | some c =>
    let s1 :=
      match c.transient_for with
      | some p =>
        let s' := updClient p
          (fun pc => { pc with transients := pc.transients.filter (fun x => x ≠ h) }) s
        if c.m_modal then removeModal p s' else s'
      | none => s
    let s2 := updClient h (fun cc => { cc with transient_for := none }) s1
    match c.thint with
    | none => s2
    | some win =>
      if win = h then s2
      else if win ≠ 0 ∧ win = s.rootWin then s2
      else
        let s3 :=
          match searchWindow s2 win with
          | some p => updClient h (fun cc => { cc with transient_for := some p }) s2
          | none => addTransientWait win h (removeTransientFromWaitingList h s2)
        let s4 := breakTransientLoop h (s3.clients.length + 2) (some h) s3
        match tf s4 h with
        | some p =>
          let s5 := updClient p (fun pc => { pc with transients := pc.transients ++ [h] }) s4
          if c.m_modal then addModal p s5 else s5
        | none => s4

/-- Direct model of the transient-related part of the `WinClient`
constructor (WinClient.cc lines 65-118): the client is entered into the
registry (`saveWindowSearch`, line 99) with null `transient_for`, empty
transient list and non-modal state; every client waiting for this
handle is relinked via `updateTransientInfo`; the waiting list for the
handle is erased; finally the new client resolves its own transient
hint. -/
def register (h : Nat) (hint : Option Nat) (s : St) : St :=
  let s1 := { s with clients := (h, ({ thint := hint } : MClient)) :: s.clients }
  let waiters := (s1.s_transient_wait.lookup h).getD []
  let s2 := waiters.foldl (fun st w => updateTransientInfo w st) s1
  let s3 := eraseTransientWait h s2
  updateTransientInfo h s3

/-- Re-resolution after the WM_TRANSIENT_FOR property of `h` changes to
`hint`: the property-notify handler calls `updateTransientInfo`, which
re-reads the hint. -/
def relink (h : Nat) (hint : Option Nat) (s : St) : St :=
  updateTransientInfo h (updClient h (fun c => { c with thint := hint }) s)

/-- States reachable from an empty registry by register (constructor)
and relink (hint change + `updateTransientInfo`) operations.  A fresh
handle is nonzero and not yet registered (X window identifiers are
unique and nonzero); relink acts on a registered client with an
arbitrary new hint. -/
inductive Reach : St → Prop
  | init (root : Nat) (menu : Int) : Reach { rootWin := root, menuLayer := menu }
  | register (s : St) (h : Nat) (hint : Option Nat) :
      Reach s → getClient s h = none → h ≠ 0 → Reach (register h hint s)
  | relink (s : St) (h : Nat) (hint : Option Nat) :
      Reach s → (getClient s h).isSome → Reach (relink h hint s)

/-- The unlink-from-previous-parent step of `updateTransientInfo`
(WinClient.cc lines 286-294), factored out for the execution lemmas
below: if the client had a parent, it is removed from that parent's
transient list (and the parent's modal count is decremented when the
client is modal). -/
def unlinkParent (h : Nat) (c : MClient) (s : St) : St :=
  match c.transient_for with
  | some p =>
    let s' := updClient p
      (fun pc => { pc with transients := pc.transients.filter (fun x => x ≠ h) }) s
    if c.m_modal then removeModal p s' else s'
  | none => s

/-- Modelled from the spec (§4.5): the ICCCM input-model matrix of
`WinClient::getFocusMode` (declared in WinClient.hh, which is not under
src/), computed from the XWMHints input field (`accepts_input`) and the
WM_TAKE_FOCUS protocol flag (`send_focus_message`). -/
inductive FocusMode where
  | locallyActive
  | passive
  | globallyActive
  | noInput
deriving DecidableEq, Repr

def getFocusMode (c : MClient) : FocusMode :=
  if c.accepts_input then
    if c.send_focus_message then FocusMode.locallyActive else FocusMode.passive
  else
    if c.send_focus_message then FocusMode.globallyActive else FocusMode.noInput

/-- Modelled from the spec (§3): `WinClient::isModal` (WinClient.hh, not
under src/) — a client counts as modal when its own modal flag is set or
it carries an inherited modal-descendant count. -/
def isModal (c : MClient) : Bool := c.m_modal || decide (0 < c.modal_count)

/-- The scan of `FluxboxWindow::setInputFocus` (Window.cc lines
1098-1104): the first member of the transient list that is modal. -/
def findModal (s : St) : List Nat → Option Nat
  | [] => none
  | t :: rest =>
    match getClient s t with
    | some tc => if isModal tc then some t else findModal s rest
    | none => findModal s rest

mutual

/-- Direct model of `FluxboxWindow::setInputFocus` (Window.cc lines
1064-1129) for frame `f`.  The off-screen `moveResize` block moves the
frame only (geometry is outside the model); `validateClient` is the
pending-destroy check on the active client, modelled by its `validc`
flag.  When the active client has transients and is modal, the scan
redirects to the first modal transient's own frame via
`setCurrentClient`; otherwise locally-active/passive clients get the
focus directly (the X `XSetInputFocus` recorded in the log) and every
other focus mode fails.  The C mutual recursion carries no bound; the
fuel decreases per delegation hop. -/
def setInputFocusOp : Nat → Nat → St → Bool × St
  | 0, _, s => (false, s)
  | fuel + 1, f, s =>
    match getFrame s f with
    | none => (false, s)
    | some fr =>
      match fr.m_client with
      | none => (false, s)
      | some mc =>
        match getClient s mc with
        | none => (false, s)
        | some c =>
          if ¬ c.validc then (false, s)
          else if ¬ c.transients.isEmpty ∧ isModal c then
            match findModal s c.transients with
            | some t =>
              match (getClient s t).bind (fun tc => tc.m_win) with
              | some tf2 => setCurrentClientOp fuel tf2 t true s
              | none => (false, s)
            | none => (false, s)
          else
            if getFocusMode c = FocusMode.locallyActive ∨ getFocusMode c = FocusMode.passive then
              (true, { s with focused := some mc, log := s.log ++ [MEvent.focusSet mc] })
            else
              (false, s)

/-- Direct model of `FluxboxWindow::setCurrentClient` (Window.cc lines
817-826): refuse when the client's frame pointer is not this frame;
otherwise make it the active client, restack its tab window
(`m_client->raise()`, recorded in the log) and, when `setinput`,
delegate to `setInputFocus` (the C `setinput && setInputFocus()`
short-circuits). -/
def setCurrentClientOp : Nat → Nat → Nat → Bool → St → Bool × St
  | 0, _, _, _, s => (false, s)
  | fuel + 1, f, c, setinput, s =>
    match getFrame s f with
    | none => (false, s)
    | some _ =>
      if ((getClient s c).bind (fun cc => cc.m_win)) ≠ some f then (false, s)
      else
        let s1 := updFrame f (fun fr2 => { fr2 with m_client := some c }) s
        let s2 := { s1 with log := s1.log ++ [MEvent.clientRaised c] }
        if setinput then setInputFocusOp fuel f s2 else (false, s2)

end

/-- Successor of `x` in the tab list with wrap-around to `front`
(`it++; if (it == end) m_client = front else m_client = *it` in
nextClient); `none` when `x` is not in the list. -/
def succAfter (front : Nat) : List Nat → Nat → Option Nat
  | [], _ => none
  | y :: rest, x => if y = x then some (rest.headD front) else succAfter front rest x

/-- Element standing immediately before `x` (used by prevClient and by
detachClient's left-neighbor walk); `none` when `x` heads the list or is
absent. -/
def beforeIn : List Nat → Nat → Option Nat
  | y :: z :: rest, x => if z = x then some y else beforeIn (z :: rest) x
  | _, _ => none

/-- Element standing immediately after `x`, without wrap-around
(detachClient's `client_it_after`); `none` when `x` is last or absent. -/
def afterIn : List Nat → Nat → Option Nat
  | [], _ => none
  | y :: rest, x => if y = x then rest.head? else afterIn rest x

/-- Direct model of `FluxboxWindow::nextClient` (Window.cc lines
778-795): advance the active client cyclically; when the current active
client is not found the front is taken and the function returns without
raising or focusing; otherwise the new tab is restacked and focus is
attempted. -/
def nextClientOp (fuel : Nat) (f : Nat) (s : St) : St :=
  match getFrame s f with
  | none => s
  | some fr =>
    if fr.m_clientlist.length ≤ 1 then s
    else
      match fr.m_client with
      | none => updFrame f (fun fr2 => { fr2 with m_client := fr2.m_clientlist.head? }) s
      | some mc =>
        match succAfter (fr.m_clientlist.headD 0) fr.m_clientlist mc with
        | none => updFrame f (fun fr2 => { fr2 with m_client := fr2.m_clientlist.head? }) s
        | some nxt =>
          let s1 := updFrame f (fun fr2 => { fr2 with m_client := some nxt }) s
          let s2 := { s1 with log := s1.log ++ [MEvent.clientRaised nxt] }
          (setInputFocusOp fuel f s2).2

/-- Direct model of `FluxboxWindow::prevClient` (Window.cc lines
797-815): step the active client backwards, wrapping from the front to
the back. -/
def prevClientOp (fuel : Nat) (f : Nat) (s : St) : St :=
  match getFrame s f with
  | none => s
  | some fr =>
    if fr.m_clientlist.length ≤ 1 then s
    else
      match fr.m_client with
      | none => updFrame f (fun fr2 => { fr2 with m_client := fr2.m_clientlist.head? }) s
      | some mc =>
        if mc ∈ fr.m_clientlist then
          let prv := if fr.m_clientlist.head? = some mc then fr.m_clientlist.getLast?
            else beforeIn fr.m_clientlist mc
          match prv with
          | none => s
          | some p =>
            let s1 := updFrame f (fun fr2 => { fr2 with m_client := some p }) s
            let s2 := { s1 with log := s1.log ++ [MEvent.clientRaised p] }
            (setInputFocusOp fuel f s2).2
        else
          updFrame f (fun fr2 => { fr2 with m_client := fr2.m_clientlist.head? }) s

/-- Direct model of `FluxboxWindow::removeClient` (Window.cc lines
716-763): refuse when the client's frame pointer is not this frame or
the list is empty; if the client is active, shift the active pointer via
prevClient (when last) or nextClient; clear the client's frame pointer,
drop it from the list, and repair a still-dangling active pointer
to the list's back (or none when empty).  Label buttons and event-masks
are presentation only. -/
def removeClientOp (fuel : Nat) (f c : Nat) (s : St) : Bool × St :=
  match getFrame s f with
  | none => (false, s)
  | some fr =>
    if ((getClient s c).bind (fun cc => cc.m_win)) ≠ some f ∨ fr.m_clientlist.length = 0 then
      (false, s)
    else
      let s1 :=
        if fr.m_client = some c then
          if fr.m_clientlist.getLast? = some c then prevClientOp fuel f s
          else nextClientOp fuel f s
        else s
      let s2 := updClient c (fun cc => { cc with m_win := none }) s1
      let s3 := updFrame f
        (fun fr2 => { fr2 with m_clientlist := fr2.m_clientlist.filter (fun x => x ≠ c) }) s2
      let s4 := updFrame f (fun fr2 =>
        if fr2.m_client = some c then
          { fr2 with m_client :=
              if fr2.m_clientlist.isEmpty then none else fr2.m_clientlist.getLast? }
        else fr2) s3
      (true, s4)

/-- Tail of `FluxboxWindow::detachClient` after the group-left relink:
removeClient, the `m_client->raise()` restack of the remaining active
tab, and the focus attempt (Window.cc lines 699-704). -/
def detachTail (fuel f c : Nat) (s1 : St) : St :=
  let s2 := (removeClientOp fuel f c s1).2
  let s3 :=
    match (getFrame s2 f).bind (fun fr2 => fr2.m_client) with
    | some mc => { s2 with log := s2.log ++ [MEvent.clientRaised mc] }
    | none => s2
  (setInputFocusOp fuel f s3).2

/-- Direct model of `FluxboxWindow::detachClient` (Window.cc lines
655-706): refuse when the client is foreign or alone; re-link the tab
successor's group-left pointer to the predecessor, then run the
remove/raise/focus tail. -/
def detachClientOp (fuel : Nat) (f c : Nat) (s : St) : Bool × St :=
  match getFrame s f with
  | none => (false, s)
  | some fr =>
    if ((getClient s c).bind (fun cc => cc.m_win)) ≠ some f ∨ fr.m_clientlist.length ≤ 1 then
      (false, s)
    else
      let leftwin : Nat :=
        if fr.m_clientlist.head? = some c then 0 else (beforeIn fr.m_clientlist c).getD 0
      let s1 :=
        match afterIn fr.m_clientlist c with
        | some aft => updClient aft (fun cc => { cc with group_left := leftwin }) s
        | none => s
      (true, detachTail fuel f c s1)

def delFrame (f : Nat) (s : St) : St :=
  { s with frames := s.frames.filter (fun kf => kf.1 ≠ f) }

def delClient (h : Nat) (s : St) : St :=
  { s with clients := s.clients.filter (fun kc => kc.1 ≠ h) }

/-- Direct model of `FluxboxWindow::attachClient` (Window.cc lines
548-651).  Event-manager, label-button and reparenting calls touch only
presentation state.  The group-left pointer is written on the argument
client only (from this frame's previous last tab); the donor branch
re-points every donor client's frame pointer, splices the donor's whole
client list onto the end of this frame's list, clears and deletes the
donor frame; the lone-client branch appends the client.  The final
`m_client->raise()` restacks the tab of this frame's active client —
which attachClient never reassigns. -/
def attachClientOp (f c : Nat) (s : St) : St :=
  match getFrame s f with
  | none => s
  | some fr =>
    match getClient s c with
    | none => s
    | some cc =>
      if cc.m_win = some f then s
      else
        let leftwin : Nat := fr.m_clientlist.getLastD 0
        let s1 := updClient c (fun x => { x with group_left := leftwin }) s
        let s9 :=
          match cc.m_win with
          | some ow =>
            match getFrame s1 ow with
            | none => s1
            | some owr =>
              let migrated := owr.m_clientlist
              let s2 := migrated.foldl
                (fun st x => updClient x (fun y => { y with m_win := some f }) st) s1
              let s3 := updFrame f
                (fun fr2 => { fr2 with m_clientlist := fr2.m_clientlist ++ migrated }) s2
              let s4 := updFrame ow
                (fun fr2 => { fr2 with m_clientlist := [], m_client := none }) s3
              delFrame ow s4
          | none =>
            let s2 := updClient c (fun x => { x with m_win := some f }) s1
            updFrame f (fun fr2 => { fr2 with m_clientlist := fr2.m_clientlist ++ [c] }) s2
        match (getFrame s9 f).bind (fun fr2 => fr2.m_client) with
        | some mc => { s9 with log := s9.log ++ [MEvent.clientRaised mc] }
        | none => s9

/-- Direct model of `getRootTransientFor` (Window.cc lines 132-138):
walk `transient_for` upward to the root.  The C loop is unbounded; on
the acyclic states described by the invariant theorems any fuel beyond
the registry size reaches the root. -/
def rootOf (s : St) : Nat → Nat → Nat
  | 0, h => h
  | fuel + 1, h =>
    match tf s h with
    | some p => rootOf s fuel p
    | none => h

/-- Direct model of `FluxboxWindow::moveToLayer` (Window.cc lines
1521-1557).  Layers below the menu layer are clamped to just above it;
the root of the active client's transient chain is resolved, its frame's
layer item is moved (`layerItem().moveToLayer`/`getLayerNum`/
`setLayerNum` live in FbTk/Window.hh outside src/ and are modelled as
the frame's `m_layernum`), and then the layer is copied to the frames of
the root client's DIRECT transients that are visible — the loop never
descends further. -/
def moveToLayerOp (n : Int) (f : Nat) (s : St) : St :=
  match getFrame s f with
  | none => s
  | some fr =>
    let layernum := if n ≤ s.menuLayer then s.menuLayer + 1 else n
    match fr.m_client with
    | none => s
    | some mc =>
      let root := rootOf s (s.clients.length + 1) mc
      match (getClient s root).bind (fun rc => rc.m_win) with
      | none => s
      | some rw =>
        let s1 := updFrame rw (fun fr2 => { fr2 with m_layernum := layernum }) s
        let ts := match getClient s root with
          | some rc => rc.transients
          | none => []
        ts.foldl (fun st t =>
          match (getClient st t).bind (fun tc => tc.m_win) with
          | some w =>
            match getFrame st w with
            | some wfr =>
              if ¬ wfr.iconic then
                updFrame w (fun fr2 => { fr2 with m_layernum := layernum }) st
              else st
            | none => st
          | none => st) s1

/-- Direct model of `raiseFluxboxWindow` (Window.cc lines 142-160): the
per-frame reentrancy lock, an X restack of the frame when not iconic
(recorded in the log; `updateNetizenWindowRaise` is a notification
only), then recursion into the frame of every visible transient of the
frame's active client.  No layer number is assigned anywhere.  The C
recursion is unbounded; the fuel is sufficient on acyclic states. -/
def raiseFW : Nat → Nat → St → St
  | 0, _, s => s
  | fuel + 1, f, s =>
    match getFrame s f with
    | none => s
    | some fr =>
      if fr.oplock then s
      else
        let s1 := updFrame f (fun fr2 => { fr2 with oplock := true }) s
        let s2 := if ¬ fr.iconic then { s1 with log := s1.log ++ [MEvent.frameRaised f] } else s1
        let ts := match fr.m_client with
          | some mc =>
            match getClient s mc with
            | some c => c.transients
            | none => []
          | none => []
        let s3 := ts.foldl (fun st t =>
          match (getClient st t).bind (fun tc => tc.m_win) with
          | some w =>
            match getFrame st w with
            | some wfr => if ¬ wfr.iconic then raiseFW fuel w st else st
            | none => st
          | none => st) s2
        updFrame f (fun fr2 => { fr2 with oplock := false }) s3

/-- Direct model of `lowerFluxboxWindow` (Window.cc lines 163-180),
mirror image of `raiseFluxboxWindow`. -/
def lowerFW : Nat → Nat → St → St
  | 0, _, s => s
  | fuel + 1, f, s =>
    match getFrame s f with
    | none => s
    | some fr =>
      if fr.oplock then s
      else
        let s1 := updFrame f (fun fr2 => { fr2 with oplock := true }) s
        let s2 := if ¬ fr.iconic then { s1 with log := s1.log ++ [MEvent.frameLowered f] } else s1
        let ts := match fr.m_client with
          | some mc =>
            match getClient s mc with
            | some c => c.transients
            | none => []
          | none => []
        let s3 := ts.foldl (fun st t =>
          match (getClient st t).bind (fun tc => tc.m_win) with
          | some w =>
            match getFrame st w with
            | some wfr => if ¬ wfr.iconic then lowerFW fuel w st else st
            | none => st
          | none => st) s2
        updFrame f (fun fr2 => { fr2 with oplock := false }) s3

/-- Direct model of `WinClient::~WinClient` (WinClient.cc lines
120-170): unlink from the parent (with the modal-count decrement) and
clear the own edge, orphan every transient — their `transient_for` is
cleared and nothing else happens to them —, clear the input flags,
detach from the containing frame via `removeClient`, purge every
wait-list entry naming this client, erase the wait entry keyed by this
handle, and drop the client from the registry (`removeWindowSearch`).
`m_diesig.notify()`, the strut/event-manager/group teardown and `XFree`
act on observers outside the model.  `unregisterTail` is the part after
the parent unlink: orphan the transients, clear the input flags, leave
the frame, purge the wait list and drop out of the registry. -/
def unregisterTail (fuel h : Nat) (c : MClient) (s1 : St) : St :=
  let s2 := c.transients.foldl
    (fun st t => updClient t (fun tc => { tc with transient_for := none }) st) s1
  let s3 := updClient h
    (fun cc => { cc with accepts_input := false, send_focus_message := false }) s2
  let s4 :=
    match c.m_win with
    | some f => (removeClientOp fuel f h s3).2
    | none => s3
  let s5 := removeTransientFromWaitingList h s4
  let s6 := eraseTransientWait h s5
  delClient h s6

def unregister (h : Nat) (s : St) : St :=
  match getClient s h with
  | none => s
  | some c =>
    let s1 :=
      match c.transient_for with
      | some p =>
        let sA := updClient p
          (fun pc => { pc with transients := pc.transients.filter (fun x => x ≠ h) }) s
        let sB := if c.m_modal then removeModal p sA else sA
        updClient h (fun cc => { cc with transient_for := none }) sB
      | none => s
    unregisterTail (s.clients.length + 1) h c s1

/-- Frame 10 holds modal client 1 whose modal transient 2 lives in frame
20: the C3 scenario. -/
def modalScene : St :=
  { clients := [(1, { m_modal := true, transients := [2], m_win := some 10 }),
                (2, { m_modal := true, transient_for := some 1, m_win := some 20 })],
    frames := [(10, { m_client := some 1, m_clientlist := [1] }),
               (20, { m_client := some 2, m_clientlist := [2] })] }

/-- Frame 10 holds modal client 1 with a single transient 2 that is not
modal: the C10 starved-scan scenario. -/
def noModalScene : St :=
  { clients := [(1, { m_modal := true, transients := [2], m_win := some 10 }),
                (2, { transient_for := some 1, m_win := some 20 })],
    frames := [(10, { m_client := some 1, m_clientlist := [1] }),
               (20, { m_client := some 2, m_clientlist := [2] })] }

/-- Frame 10 with tabs [1, 2, 3], active client 2; no client is modal:
the safe detach scenario. -/
def detachSafeScene : St :=
  { clients := [(1, { m_win := some 10 }), (2, { m_win := some 10 }),
                (3, { m_win := some 10 })],
    frames := [(10, { m_client := some 2, m_clientlist := [1, 2, 3] })] }

/-- Frame 10 with tabs [1, 2, 3], active client 2 modal whose modal
transient 3 is a tab of the same frame. -/
def detachModalScene : St :=
  { clients := [(1, { m_win := some 10 }),
                (2, { m_win := some 10, m_modal := true, transients := [3] }),
                (3, { m_win := some 10, m_modal := true, transient_for := some 2 })],
    frames := [(10, { m_client := some 2, m_clientlist := [1, 2, 3] })] }

/-- Frame 10 holds client 1 (active); donor frame 20 holds clients
[2, 3] with active 2. -/
def attachScene : St :=
  { clients := [(1, { m_win := some 10 }), (2, { m_win := some 20 }),
                (3, { m_win := some 20 })],
    frames := [(10, { m_client := some 1, m_clientlist := [1] }),
               (20, { m_client := some 2, m_clientlist := [2, 3] })] }

/-- Transient chain leaf 3 → mid 2 → root 1, each client alone in its
own visible frame (30, 20, 10) with distinct layer numbers. -/
def chainScene : St :=
  { clients := [(1, { transients := [2], m_win := some 10 }),
                (2, { transient_for := some 1, transients := [3], m_win := some 20 }),
                (3, { transient_for := some 2, m_win := some 30 })],
    frames := [(10, { m_client := some 1, m_clientlist := [1], m_layernum := 7 }),
               (20, { m_client := some 2, m_clientlist := [2], m_layernum := 1 }),
               (30, { m_client := some 3, m_clientlist := [3], m_layernum := 2 })] }

/-- Client 1 (modal, in frame 10) has transients [2, 3] and parent 4;
wait entries exist both keyed by 1 and naming 1. -/
def unregScene : St :=
  { clients := [(1, { transient_for := some 4, transients := [2, 3], m_modal := true,
                      m_win := some 10 }),
                (2, { transient_for := some 1 }), (3, { transient_for := some 1 }),
                (4, { transients := [1], modal_count := 1 })],
    frames := [(10, { m_client := some 1, m_clientlist := [1] })],
    s_transient_wait := [(1, [5]), (7, [1, 8])] }

theorem asSigned_small {u : Nat} (h : u < INTMIN32) : asSigned u = u := by
  unfold asSigned i32wrap INTMIN32 UINT32
  unfold INTMIN32 at h
  omega

/-- With no aspect constraint declared, `applySizeHints` acts on the two
dimensions independently as clamp-then-quantise. -/
theorem applySizeHints_aspectOff (sh : SizeHints)
    (hasp : sh.min_aspect_y = 0 ∨ sh.max_aspect_y = 0)
    (w h : Int) (m : Bool) :
    applySizeHints sh w h m =
      (fitDim (asSigned sh.min_width) (asSigned sh.max_width) (0 < sh.max_width)
         (asSigned sh.base_width) (asSigned sh.width_inc) w,
       fitDim (asSigned sh.min_height) (asSigned sh.max_height) (0 < sh.max_height)
         (asSigned sh.base_height) (asSigned sh.height_inc) h,
       quantCell (asSigned sh.base_width) (asSigned sh.width_inc)
         (clampDim (asSigned sh.min_width) (asSigned sh.max_width) (0 < sh.max_width) w),
       quantCell (asSigned sh.base_height) (asSigned sh.height_inc)
         (clampDim (asSigned sh.min_height) (asSigned sh.max_height) (0 < sh.max_height) h)) := by
  rcases hasp with h0 | h0 <;>
    simp only [applySizeHints, h0, lt_self_iff_false, false_and, and_false,
      if_false] <;>
    rfl

theorem tdiv_le_tdiv_right {a b c : Int} (hc : 0 < c) (h : a ≤ b) :
    a.tdiv c ≤ b.tdiv c := by
  rcases le_or_lt 0 a with ha | ha
  · have hb : 0 ≤ b := le_trans ha h
    rw [Int.tdiv_eq_ediv ha hc.le, Int.tdiv_eq_ediv hb hc.le]
    exact Int.ediv_le_ediv hc h
  · rcases le_or_lt 0 b with hb | hb
    · have h1 : a.tdiv c ≤ 0 := by
        have h2 : 0 ≤ (-a).tdiv c := Int.tdiv_nonneg (by omega) hc.le
        rw [Int.neg_tdiv] at h2
        omega
      have h2 : 0 ≤ b.tdiv c := Int.tdiv_nonneg hb hc.le
      omega
    · have h1 : (-b).tdiv c ≤ (-a).tdiv c := by
        rw [Int.tdiv_eq_ediv (by omega) hc.le, Int.tdiv_eq_ediv (by omega) hc.le]
        exact Int.ediv_le_ediv hc (by omega)
      rw [Int.neg_tdiv, Int.neg_tdiv] at h1
      omega

theorem tmod_neg_left (a c : Int) : (-a).tmod c = -(a.tmod c) := by
  have h1 := Int.tdiv_add_tmod a c
  have h2 := Int.tdiv_add_tmod (-a) c
  rw [Int.neg_tdiv] at h2
  linarith

theorem neg_lt_tmod (a : Int) {c : Int} (hc : 0 < c) : -c < a.tmod c := by
  rcases le_or_lt 0 a with ha | ha
  · have := Int.tmod_nonneg c ha
    omega
  · have h1 := Int.tmod_lt_of_pos (-a) hc
    rw [tmod_neg_left] at h1
    omega

theorem dvd_small_eq_zero {inc d : Int} (hinc : 0 < inc) (hd : inc ∣ d)
    (h1 : -inc < d) (h2 : d < inc) : d = 0 := by
  obtain ⟨k, hk⟩ := hd
  subst hk
  rcases lt_trichotomy k 0 with hk0 | hk0 | hk0
  · have hb : inc * k ≤ inc * (-1) := by
      apply mul_le_mul_of_nonneg_left (by omega) hinc.le
    have hc : inc * (-1) = -inc := by ring
    omega
  · simp [hk0]
  · have hb : inc * 1 ≤ inc * k := by
      apply mul_le_mul_of_nonneg_left (by omega) hinc.le
    have hc : inc * 1 = inc := by ring
    omega

theorem quantDim_dvd (base inc w : Int) : inc ∣ (quantDim base inc w - base) := by
  unfold quantDim
  exact ⟨quantCell base inc w, by ring⟩

theorem quantDim_exact {base inc w : Int} (hinc : inc ≠ 0)
    (h : inc ∣ (w - base)) : quantDim base inc w = w := by
  obtain ⟨k, hk⟩ := h
  have hcell : quantCell base inc w = k := by
    unfold quantCell
    rw [hk, mul_comm, Int.mul_tdiv_cancel _ hinc]
  unfold quantDim
  rw [hcell]
  have hcomm : k * inc = inc * k := mul_comm k inc
  omega

theorem quantDim_mono {base inc : Int} (hinc : 0 < inc) {a b : Int} (h : a ≤ b) :
    quantDim base inc a ≤ quantDim base inc b := by
  unfold quantDim quantCell
  have h1 : (a - base).tdiv inc ≤ (b - base).tdiv inc :=
    tdiv_le_tdiv_right hinc (by omega)
  have h2 : (a - base).tdiv inc * inc ≤ (b - base).tdiv inc * inc :=
    mul_le_mul_of_nonneg_right h1 hinc.le
  omega

theorem quantDim_near {base inc : Int} (hinc : 0 < inc) (w : Int) :
    w - inc < quantDim base inc w ∧ quantDim base inc w < w + inc := by
  have h1 := Int.tdiv_add_tmod (w - base) inc
  have h2 := Int.tmod_lt_of_pos (w - base) hinc
  have h3 := neg_lt_tmod (w - base) hinc
  unfold quantDim quantCell
  constructor <;> nlinarith [h1, h2, h3]

theorem clampDim_ge {mn mxv : Int} {um : Prop} [Decidable um]
    (h : ¬(um ∧ mxv < mn)) (w : Int) : mn ≤ clampDim mn mxv um w := by
  unfold clampDim
  by_cases h1 : w < 0 ∨ w < mn
  · rw [if_pos h1, if_neg h]
  · have hw : mn ≤ w := by omega
    simp only [if_neg h1]
    by_cases h2 : um ∧ mxv < w
    · rw [if_pos h2]
      rcases not_and_or.mp h with hum | hlt
      · exact absurd h2.1 hum
      · omega
    · rw [if_neg h2]
      exact hw

theorem clampDim_le {mn mxv : Int} {um : Prop} [Decidable um]
    (hum : um) (hmnmx : mn ≤ mxv) (w : Int) : clampDim mn mxv um w ≤ mxv := by
  unfold clampDim
  by_cases h1 : w < 0 ∨ w < mn
  · rw [if_pos h1]
    by_cases h2 : um ∧ mxv < mn
    · rw [if_pos h2]
    · rw [if_neg h2]
      exact hmnmx
  · rw [if_neg h1]
    by_cases h2 : um ∧ mxv < w
    · rw [if_pos h2]
    · rw [if_neg h2]
      rcases not_and_or.mp h2 with h3 | h3
      · exact absurd hum h3
      · omega

theorem clampDim_const {mn mxv : Int} {um : Prop} [Decidable um]
    (hum : um) (h : mxv < mn) (w : Int) : clampDim mn mxv um w = mxv := by
  unfold clampDim
  by_cases h1 : w < 0 ∨ w < mn
  · rw [if_pos h1, if_pos ⟨hum, h⟩]
  · have hw : mn ≤ w := by omega
    rw [if_neg h1, if_pos ⟨hum, by omega⟩]

/-- Clamp-then-quantise is idempotent in one dimension (the `0 ≤ mn` and
`0 ≤ mxv` hypotheses hold for every unsigned hint field; `0 < inc` is
enforced by `updateWMNormalHints`, lines 521-524). -/
theorem fitDim_idem {mn mxv base inc : Int} {um : Prop} [Decidable um]
    (hmn : 0 ≤ mn) (_hmx : 0 ≤ mxv) (hinc : 0 < inc) (w : Int) :
    fitDim mn mxv um base inc (fitDim mn mxv um base inc w) =
      fitDim mn mxv um base inc w := by
  by_cases hA : um ∧ mxv < mn
  · unfold fitDim
    rw [clampDim_const hA.1 hA.2, clampDim_const hA.1 hA.2]
  · unfold fitDim
    set x := clampDim mn mxv um w with hxdef
    set y := quantDim base inc x with hydef
    have hgrid : inc ∣ (y - base) := by
      rw [hydef]; exact quantDim_dvd base inc x
    have hmnx : mn ≤ x := clampDim_ge hA w
    have hcy : clampDim mn mxv um y = y ∨
        (clampDim mn mxv um y = mn ∧ y < mn) ∨
        (clampDim mn mxv um y = mxv ∧ um ∧ mxv < y ∧ mn ≤ mxv) := by
      unfold clampDim
      by_cases h1 : y < 0 ∨ y < mn
      · right; left
        exact ⟨by rw [if_pos h1, if_neg hA], by omega⟩
      · by_cases h2 : um ∧ mxv < y
        · right; right
          refine ⟨by rw [if_neg h1, if_pos h2], h2.1, h2.2, ?_⟩
          rcases not_and_or.mp hA with h3 | h3
          · exact absurd h2.1 h3
          · omega
        · left
          rw [if_neg h1, if_neg h2]
    rcases hcy with hc | ⟨hc, hylt⟩ | ⟨hc, hum, hylt, hmm⟩
    · rw [hc]
      exact quantDim_exact hinc.ne' hgrid
    · rw [hc]
      have h1 : quantDim base inc mn ≤ y := by
        rw [hydef]; exact quantDim_mono hinc hmnx
      have h2 := (@quantDim_near base inc hinc mn).1
      have h3 : inc ∣ (quantDim base inc mn - y) := by
        have h5 := dvd_sub (quantDim_dvd base inc mn) hgrid
        have h6 : quantDim base inc mn - base - (y - base) =
            quantDim base inc mn - y := by ring
        rwa [h6] at h5
      have h4 : quantDim base inc mn - y = 0 :=
        dvd_small_eq_zero hinc h3 (by omega) (by omega)
      omega
    · rw [hc]
      have hxle : x ≤ mxv := clampDim_le hum hmm w
      have h1 : y ≤ quantDim base inc mxv := by
        rw [hydef]; exact quantDim_mono hinc hxle
      have h2 := (@quantDim_near base inc hinc mxv).2
      have h3 : inc ∣ (quantDim base inc mxv - y) := by
        have h5 := dvd_sub (quantDim_dvd base inc mxv) hgrid
        have h6 : quantDim base inc mxv - base - (y - base) =
            quantDim base inc mxv - y := by ring
        rwa [h6] at h5
      have h4 : quantDim base inc mxv - y = 0 :=
        dvd_small_eq_zero hinc h3 (by omega) (by omega)
      omega

/-- Reapplying the one-dimensional fit also reproduces the reported cell
count. -/
theorem fitCell_idem {mn mxv base inc : Int} {um : Prop} [Decidable um]
    (hmn : 0 ≤ mn) (hmx : 0 ≤ mxv) (hinc : 0 < inc) (w : Int) :
    quantCell base inc (clampDim mn mxv um (fitDim mn mxv um base inc w)) =
      quantCell base inc (clampDim mn mxv um w) := by
  have h := @fitDim_idem mn mxv base inc um _ hmn hmx hinc w
  unfold fitDim quantDim at h
  have h2 : quantCell base inc (clampDim mn mxv um
        (quantCell base inc (clampDim mn mxv um w) * inc + base)) * inc =
      quantCell base inc (clampDim mn mxv um w) * inc := by omega
  have h3 := mul_right_cancel₀ hinc.ne' h2
  unfold fitDim quantDim
  exact h3

/-- C7, counterexample: `applySizeHints` is not idempotent for every
size-hint set.  With a mandatory 2:1 aspect ratio and input `(1, 7)`
(maximizing false) the first application projects and truncates to
`(3, 1)`, but applying the function to that output yields `(2, 1)`:
`3/1 = 3` violates the maximum aspect `2` again, and reprojection moves
the point.  (The same values arise under IEEE double arithmetic.) -/
theorem applySizeHints_aspect21_not_idempotent :
    applySizeHints SizeHints.aspect21 1 7 false = (3, 1, 3, 1) ∧
    applySizeHints SizeHints.aspect21
        (applySizeHints SizeHints.aspect21 1 7 false).1
        (applySizeHints SizeHints.aspect21 1 7 false).2.1 false ≠
      applySizeHints SizeHints.aspect21 1 7 false := by
  constructor
  · decide
  · decide

/-- C7, amended: `applySizeHints` is idempotent for every size-hint set
that declares no aspect-ratio constraint (one of the aspect denominators
is zero, so the aspect branch is inert), has positive increments, and has
fields in `int` range; and the specification scenario
`applySizeHints(107, 54, false) = (100, 50)` with cells `(10, 5)` is a
fixed point. -/
theorem applySizeHints_idempotent_noAspect :
    (∀ sh : SizeHints, sh.small → (sh.min_aspect_y = 0 ∨ sh.max_aspect_y = 0) →
      0 < sh.width_inc → 0 < sh.height_inc → ∀ (w h : Int) (m : Bool),
      applySizeHints sh (applySizeHints sh w h m).1 (applySizeHints sh w h m).2.1 m =
        applySizeHints sh w h m) ∧
    applySizeHints SizeHints.scenario107 107 54 false = (100, 50, 10, 5) ∧
    applySizeHints SizeHints.scenario107 100 50 false = (100, 50, 10, 5) := by
  refine ⟨?_, by decide, by decide⟩
  intro sh hsm hasp hwinc hhinc w h m
  obtain ⟨s1, s2, s3, s4, s5, s6, s7, s8⟩ := hsm
  rw [applySizeHints_aspectOff sh hasp w h m, applySizeHints_aspectOff sh hasp]
  dsimp only
  have hmnw : (0 : Int) ≤ asSigned sh.min_width := by
    rw [asSigned_small s1]; exact Int.natCast_nonneg _
  have hmxw : (0 : Int) ≤ asSigned sh.max_width := by
    rw [asSigned_small s3]; exact Int.natCast_nonneg _
  have hincw : (0 : Int) < asSigned sh.width_inc := by
    rw [asSigned_small s5]; exact_mod_cast hwinc
  have hmnh : (0 : Int) ≤ asSigned sh.min_height := by
    rw [asSigned_small s2]; exact Int.natCast_nonneg _
  have hmxh : (0 : Int) ≤ asSigned sh.max_height := by
    rw [asSigned_small s4]; exact Int.natCast_nonneg _
  have hinch : (0 : Int) < asSigned sh.height_inc := by
    rw [asSigned_small s6]; exact_mod_cast hhinc
  simp only [Prod.mk.injEq]
  exact ⟨fitDim_idem hmnw hmxw hincw w, fitDim_idem hmnh hmxh hinch h,
    fitCell_idem hmnw hmxw hincw w, fitCell_idem hmnh hmxh hinch h⟩

theorem applySizeHints_idempotent_noAspect_witness :
    SizeHints.scenario107.small ∧
    (SizeHints.scenario107.min_aspect_y = 0 ∨ SizeHints.scenario107.max_aspect_y = 0) ∧
    0 < SizeHints.scenario107.width_inc ∧ 0 < SizeHints.scenario107.height_inc ∧
    applySizeHints SizeHints.scenario107
        (applySizeHints SizeHints.scenario107 107 54 false).1
        (applySizeHints SizeHints.scenario107 107 54 false).2.1 false =
      applySizeHints SizeHints.scenario107 107 54 false :=
  ⟨by decide, by decide, by decide, by decide,
    applySizeHints_idempotent_noAspect.1 SizeHints.scenario107 (by decide)
      (by decide) (by decide) (by decide) 107 54 false⟩

theorem Frac.not_blt {a b : Frac} : ¬(Frac.blt a b = true) ↔ Frac.ble b a = true := by
  simp only [Frac.blt, Frac.ble, decide_eq_true_eq, not_lt]

/-- C8, counterexample: `checkSizeHints` does not treat a maximum of 0
as unbounded.  With the constructor-default hints (min 1x1, max 0
unbounded-by-the-claim, inc 1x1, base 1x1, no aspect bounds) the size
5x5 satisfies every condition of the claim, yet the code returns false,
because `width > m_size_hints.max_width` compares against the literal 0
(WinClient.cc line 830). -/
theorem checkSizeHints_maxZero_cex :
    checkSizeHintsClaim SizeHints.ctorDefault 5 5 ∧
    checkSizeHints SizeHints.ctorDefault 5 5 = false := by
  constructor
  · decide
  · decide

theorem usub32_eq {a b : Nat} (hb : b ≤ a) (ha : a < UINT32) (hblt : b < UINT32) :
    usub32 a b = a - b := by
  unfold usub32 UINT32
  unfold UINT32 at ha hblt
  omega

/-- C8, amended: for sizes at or above the base size (and all values in
unsigned range, increments positive), `checkSizeHints(width, height)`
returns true iff width and height lie within the min/max bounds with the
max bounds compared directly (so a declared max of 0, which the clamping
step of `applySizeHints` treats as unbounded, rejects every size here),
width and height are exactly on the base-plus-increment grid, and the
width/height ratio lies within the declared aspect bounds (min bound as
≤, max bound as ≥, a bound with non-positive denominator
unconstrained). -/
theorem checkSizeHints_iff (sh : SizeHints) (w h : Nat)
    (hbw : sh.base_width ≤ w) (hbh : sh.base_height ≤ h)
    (hwinc : 0 < sh.width_inc) (hhinc : 0 < sh.height_inc)
    (hwlt : w < UINT32) (hhlt : h < UINT32)
    (hbwlt : sh.base_width < UINT32) (hbhlt : sh.base_height < UINT32) :
    checkSizeHints sh w h = true ↔
      (sh.min_width ≤ w ∧ sh.min_height ≤ h ∧
       w ≤ sh.max_width ∧ h ≤ sh.max_height ∧
       sh.width_inc ∣ (w - sh.base_width) ∧ sh.height_inc ∣ (h - sh.base_height) ∧
       (0 < sh.min_aspect_y →
         Frac.ble (intF sh.min_aspect_x / intF sh.min_aspect_y) (intF w / intF h) = true) ∧
       (0 < sh.max_aspect_y →
         Frac.ble (intF w / intF h) (intF sh.max_aspect_x / intF sh.max_aspect_y) = true)) := by
  unfold checkSizeHints
  rw [usub32_eq hbw hwlt hbwlt, usub32_eq hbh hhlt hbhlt]
  have hdw : (w - sh.base_width) % sh.width_inc = 0 ↔ sh.width_inc ∣ (w - sh.base_width) :=
    Nat.dvd_iff_mod_eq_zero.symm
  have hdh : (h - sh.base_height) % sh.height_inc = 0 ↔ sh.height_inc ∣ (h - sh.base_height) :=
    Nat.dvd_iff_mod_eq_zero.symm
  split_ifs with h1 h2 h3 h4
  · simp only [false_iff]
    rintro ⟨hA, hB, _⟩
    omega
  · simp only [false_iff]
    rintro ⟨hA, hB, hC, hD, _⟩
    omega
  · simp only [false_iff]
    rintro ⟨hA, hB, hC, hD, hE, _⟩
    exact h3 (hdw.mpr hE)
  · simp only [false_iff]
    rintro ⟨hA, hB, hC, hD, hE, hF, _⟩
    exact h4 (hdh.mpr hF)
  · dsimp only
    split_ifs with h5 h6
    · simp only [false_iff]
      rintro ⟨hA, hB, hC, hD, hE, hF, hG, hH⟩
      rcases h5 with ⟨h5a, h5b⟩
      have h7 := hG h5a
      rw [← Frac.not_blt] at h7
      exact h7 h5b
    · simp only [false_iff]
      rintro ⟨hA, hB, hC, hD, hE, hF, hG, hH⟩
      rcases h6 with ⟨h6a, h6b⟩
      have h7 := hH h6a
      rw [← Frac.not_blt] at h7
      exact h7 h6b
    · simp only [true_iff]
      refine ⟨by omega, by omega, by omega, by omega, hdw.mp (by omega), hdh.mp (by omega),
        ?_, ?_⟩
      · intro hpos
        rw [← Frac.not_blt]
        intro hblt
        exact h5 ⟨hpos, hblt⟩
      · intro hpos
        rw [← Frac.not_blt]
        intro hblt
        exact h6 ⟨hpos, hblt⟩

theorem checkSizeHints_iff_witness :
    SizeHints.scenario107.base_width ≤ 100 ∧ SizeHints.scenario107.base_height ≤ 50 ∧
    0 < SizeHints.scenario107.width_inc ∧ 0 < SizeHints.scenario107.height_inc ∧
    (checkSizeHints SizeHints.scenario107 100 50 = true ↔
      (SizeHints.scenario107.min_width ≤ 100 ∧ SizeHints.scenario107.min_height ≤ 50 ∧
       100 ≤ SizeHints.scenario107.max_width ∧ 50 ≤ SizeHints.scenario107.max_height ∧
       SizeHints.scenario107.width_inc ∣ (100 - SizeHints.scenario107.base_width) ∧
       SizeHints.scenario107.height_inc ∣ (50 - SizeHints.scenario107.base_height) ∧
       (0 < SizeHints.scenario107.min_aspect_y →
         Frac.ble (intF SizeHints.scenario107.min_aspect_x / intF SizeHints.scenario107.min_aspect_y)
           (intF 100 / intF 50) = true) ∧
       (0 < SizeHints.scenario107.max_aspect_y →
         Frac.ble (intF 100 / intF 50)
           (intF SizeHints.scenario107.max_aspect_x / intF SizeHints.scenario107.max_aspect_y) = true))) :=
  ⟨by decide, by decide, by decide, by decide,
    checkSizeHints_iff SizeHints.scenario107 100 50 (by decide) (by decide) (by decide)
      (by decide) (by decide) (by decide) (by decide) (by decide)⟩

/-!
State model of the WinClient transient graph, the client registry and
the Frame (FluxboxWindow) world.

The registry (`Fluxbox::saveWindowSearch` / `searchWindow`) keys every
`WinClient` by its X window handle, so clients are stored in an
association list from handle to record; `FluxboxWindow`s (frames) are
likewise keyed by an identifier.  The static wait map
`WinClient::s_transient_wait` is an association list from a window
handle to the list of waiting clients.  Calls into the display server
that only restack or focus X windows are recorded in an event log.
-/

theorem lookup_map_if {β : Type} (g : β → β) (h h' : Nat) (l : List (Nat × β)) :
    (l.map (fun kc => if kc.1 = h then (kc.1, g kc.2) else kc)).lookup h' =
      if h' = h then (l.lookup h').map g else l.lookup h' := by
  induction l with
  | nil => by_cases hh : h' = h <;> simp [List.lookup, hh]
  | cons kc rest ih =>
    simp only [List.map_cons]
    by_cases hk : kc.1 = h
    · rw [if_pos hk]
      by_cases hh : h' = kc.1
      · subst hh
        simp [List.lookup, hk]
      · have hb : (h' == kc.1) = false := by simp [hh]
        simp only [List.lookup, hb]
        rw [ih]
    · rw [if_neg hk]
      by_cases hh : h' = kc.1
      · subst hh
        simp [List.lookup, hk]
      · have hb : (h' == kc.1) = false := by simp [hh]
        simp only [List.lookup, hb]
        rw [ih]

theorem getClient_updClient (s : St) (h h' : Nat) (g : MClient → MClient) :
    getClient (updClient h g s) h' =
      if h' = h then (getClient s h').map g else getClient s h' :=
  lookup_map_if g h h' s.clients

theorem getClient_isSome_updClient (s : St) (h h' : Nat) (g : MClient → MClient) :
    (getClient (updClient h g s) h').isSome = (getClient s h').isSome := by
  rw [getClient_updClient]
  by_cases hh : h' = h <;> simp [hh]

theorem clients_length_updClient (h : Nat) (g : MClient → MClient) (s : St) :
    (updClient h g s).clients.length = s.clients.length := by
  simp [updClient]

theorem tf_updClient_keep (s : St) (h h' : Nat) (g : MClient → MClient)
    (hg : ∀ c, (g c).transient_for = c.transient_for) :
    tf (updClient h g s) h' = tf s h' := by
  unfold tf
  rw [getClient_updClient]
  by_cases hh : h' = h
  · rw [if_pos hh, hh]
    cases getClient s h <;> simp [hg]
  · rw [if_neg hh]

theorem tf_updClient_set (s : St) (h h' : Nat) (v : Option Nat)
    (hreg : (getClient s h).isSome) :
    tf (updClient h (fun c => { c with transient_for := v }) s) h' =
      if h' = h then v else tf s h' := by
  unfold tf
  rw [getClient_updClient]
  by_cases hh : h' = h
  · rw [if_pos hh, if_pos hh, hh]
    obtain ⟨c, hc⟩ := Option.isSome_iff_exists.mp hreg
    rw [hc]
    rfl
  · rw [if_neg hh, if_neg hh]

theorem getClient_rmWait (x : Nat) (s : St) (h : Nat) :
    getClient (removeTransientFromWaitingList x s) h = getClient s h := rfl

theorem getClient_addWait (w x : Nat) (s : St) (h : Nat) :
    getClient (addTransientWait w x s) h = getClient s h := by
  unfold addTransientWait
  split_ifs <;> rfl

theorem getClient_eraseWait (w : Nat) (s : St) (h : Nat) :
    getClient (eraseTransientWait w s) h = getClient s h := rfl

theorem tf_rmWait (x : Nat) (s : St) (h : Nat) :
    tf (removeTransientFromWaitingList x s) h = tf s h := rfl

theorem tf_addWait (w x : Nat) (s : St) (h : Nat) :
    tf (addTransientWait w x s) h = tf s h := by
  unfold tf
  rw [getClient_addWait]

theorem tf_eraseWait (w : Nat) (s : St) (h : Nat) :
    tf (eraseTransientWait w s) h = tf s h := rfl

theorem clients_length_rmWait (x : Nat) (s : St) :
    (removeTransientFromWaitingList x s).clients.length = s.clients.length := rfl

theorem clients_length_addWait (w x : Nat) (s : St) :
    (addTransientWait w x s).clients.length = s.clients.length := by
  unfold addTransientWait
  split_ifs <;> rfl

theorem iterTF_add (s : St) (m n : Nat) (h : Nat) :
    iterTF s (m + n) h = (iterTF s m h).bind (iterTF s n) := by
  induction m generalizing h with
  | zero =>
    show iterTF s (0 + n) h = (some h).bind (iterTF s n)
    rw [Nat.zero_add]
    rfl
  | succ m ih =>
    have he : m + 1 + n = (m + n) + 1 := by omega
    rw [he]
    show (tf s h).bind (iterTF s (m + n)) = ((tf s h).bind (iterTF s m)).bind (iterTF s n)
    cases htf : tf s h with
    | none => rfl
    | some p =>
      show iterTF s (m + n) p = (iterTF s m p).bind (iterTF s n)
      exact ih p

theorem iterTF_none_le (s : St) {n m : Nat} {h : Nat}
    (hn : iterTF s n h = none) (hm : n ≤ m) : iterTF s m h = none := by
  obtain ⟨k, rfl⟩ := Nat.exists_eq_add_of_le hm
  rw [iterTF_add, hn]
  rfl

theorem iterTF_some_le (s : St) {n m : Nat} {h v : Nat}
    (hv : iterTF s n h = some v) (hm : m ≤ n) : ∃ u, iterTF s m h = some u := by
  cases hu : iterTF s m h with
  | some u => exact ⟨u, rfl⟩
  | none =>
    rw [iterTF_none_le s hu hm] at hv
    exact absurd hv (by simp)

theorem iterTF_succ_right (s : St) (n : Nat) (h : Nat) :
    iterTF s (n + 1) h = (iterTF s n h).bind (tf s) := by
  rw [iterTF_add s n 1 h]
  cases hu : iterTF s n h with
  | none => rfl
  | some u =>
    show iterTF s 1 u = tf s u
    show (tf s u).bind (iterTF s 0) = tf s u
    cases tf s u <;> rfl

theorem cycle_rotate (s : St) {n i : Nat} {y u : Nat}
    (hc : iterTF s n y = some y) (hu : iterTF s i y = some u) :
    iterTF s n u = some u := by
  have h1 : iterTF s (i + n) y = iterTF s n u := by
    rw [iterTF_add, hu]
    rfl
  have h2 : iterTF s (n + i) y = some u := by
    rw [iterTF_add, hc]
    exact hu
  have h3 : i + n = n + i := by omega
  rw [← h1, h3, h2]

theorem mem_keys_of_lookup {β : Type} {l : List (Nat × β)} {k : Nat}
    (h : (l.lookup k).isSome) : k ∈ l.map Prod.fst := by
  induction l with
  | nil => simp [List.lookup] at h
  | cons kc rest ih =>
    by_cases hk : k = kc.1
    · simp [hk]
    · have hb : (k == kc.1) = false := by simp [hk]
      simp only [List.lookup, hb] at h
      simp [ih h]

/-- In a well-formed acyclic state every transient chain reaches a null
parent within `|clients| + 1` steps. -/
theorem chain_terminates (s : St) (hwf : WfEdges s) (hac : Acyc s) (h : Nat) :
    ∃ n, n ≤ s.clients.length + 1 ∧ iterTF s n h = none := by
  by_contra hcon
  push_neg at hcon
  have hsome : ∀ i, i ≤ s.clients.length + 1 → ∃ v, iterTF s i h = some v := by
    intro i hi
    cases hv : iterTF s i h with
    | some v => exact ⟨v, rfl⟩
    | none => exact absurd hv (hcon i hi)
  have hmaps : ∀ i ∈ Finset.range (s.clients.length + 1),
      (iterTF s (i + 1) h).getD 0 ∈ (s.clients.map Prod.fst).toFinset := by
    intro i hi
    rw [Finset.mem_range] at hi
    obtain ⟨v, hv⟩ := hsome (i + 1) (by omega)
    obtain ⟨u, hu⟩ := iterTF_some_le s hv (by omega : i ≤ i + 1)
    have hstep : tf s u = some v := by
      have := iterTF_succ_right s i h
      rw [hu, hv] at this
      exact this.symm
    have hreg := hwf u v hstep
    rw [hv]
    exact List.mem_toFinset.mpr (mem_keys_of_lookup hreg)
  have hcard : (s.clients.map Prod.fst).toFinset.card <
      (Finset.range (s.clients.length + 1)).card := by
    have h1 := List.toFinset_card_le (s.clients.map Prod.fst)
    rw [Finset.card_range]
    have h2 : (s.clients.map Prod.fst).length = s.clients.length := by simp
    omega
  obtain ⟨i, hi, j, hj, hij, heq⟩ :=
    Finset.exists_ne_map_eq_of_card_lt_of_maps_to hcard hmaps
  rw [Finset.mem_range] at hi hj
  rcases Nat.lt_or_ge i j with hlt | hge
  · obtain ⟨vi, hvi⟩ := hsome (i + 1) (by omega)
    obtain ⟨vj, hvj⟩ := hsome (j + 1) (by omega)
    rw [hvi, hvj] at heq
    simp only [Option.getD_some] at heq
    subst heq
    have hd : iterTF s (j - i) vi = some vi := by
      have h1 : iterTF s ((i + 1) + (j - i)) h = (iterTF s (i + 1) h).bind (iterTF s (j - i)) :=
        iterTF_add s (i + 1) (j - i) h
      have h2 : (i + 1) + (j - i) = j + 1 := by omega
      rw [h2, hvj, hvi] at h1
      exact h1.symm
    exact hac vi (j - i) (by omega) hd
  · rcases Nat.lt_or_ge j i with hlt2 | hge2
    · obtain ⟨vi, hvi⟩ := hsome (i + 1) (by omega)
      obtain ⟨vj, hvj⟩ := hsome (j + 1) (by omega)
      rw [hvi, hvj] at heq
      simp only [Option.getD_some] at heq
      subst heq
      have hd : iterTF s (i - j) vi = some vi := by
        have h1 : iterTF s ((j + 1) + (i - j)) h = (iterTF s (j + 1) h).bind (iterTF s (i - j)) :=
          iterTF_add s (j + 1) (i - j) h
        have h2 : (j + 1) + (i - j) = i + 1 := by omega
        rw [h2, hvj, hvi] at h1
        exact h1.symm
      exact hac vi (i - j) (by omega) hd
    · omega

theorem iterTF_agree_avoid (sA sB : St) (bad : Nat → Prop)
    (hsame : ∀ u, ¬ bad u → tf sA u = tf sB u) :
    ∀ (k : Nat) (y : Nat),
      (∀ i v, i < k → iterTF sA i y = some v → ¬ bad v) →
      iterTF sA k y = iterTF sB k y := by
  intro k
  induction k with
  | zero => intro y _; rfl
  | succ k ih =>
    intro y hcond
    have h0 : ¬ bad y := hcond 0 y (by omega) rfl
    show (tf sA y).bind (iterTF sA k) = (tf sB y).bind (iterTF sB k)
    rw [← hsame y h0]
    cases hty : tf sA y with
    | none => rfl
    | some q =>
      show iterTF sA k q = iterTF sB k q
      apply ih
      intro i v hi hv
      apply hcond (i + 1) v (by omega)
      show (tf sA y).bind (iterTF sA i) = some v
      rw [hty]
      exact hv

theorem acyc_of_edge_subset (s s' : St)
    (hsub : ∀ x v, tf s' x = some v → tf s x = some v) (hac : Acyc s) : Acyc s' := by
  have hiter : ∀ n y v, iterTF s' n y = some v → iterTF s n y = some v := by
    intro n
    induction n with
    | zero => intro y v hv; exact hv
    | succ n ih =>
      intro y v hv
      have hv' : (tf s' y).bind (iterTF s' n) = some v := hv
      show (tf s y).bind (iterTF s n) = some v
      cases hty : tf s' y with
      | none => rw [hty] at hv'; exact absurd hv' (by simp)
      | some q =>
        rw [hty] at hv'
        rw [hsub y q hty]
        exact ih q v hv'
  intro y n hn hcy
  exact hac y n hn (hiter n y y hcy)

theorem wfEdges_preserve (s s' : St)
    (hsub : ∀ x v, tf s' x = some v → tf s x = some v)
    (hdom : ∀ q, (getClient s q).isSome → (getClient s' q).isSome)
    (hwf : WfEdges s) : WfEdges s' :=
  fun x q htf => hdom q (hwf x q (hsub x q htf))

theorem breakTransientLoop_noneArg (self : Nat) (fuel : Nat) (s : St) :
    breakTransientLoop self fuel none s = s := by
  cases fuel <;> rfl

theorem breakTransientLoop_hit (self : Nat) (fuel : Nat) (v : Nat) (s : St)
    (hv : tf s v = some self) :
    breakTransientLoop self (fuel + 1) (some v) s =
      updClient v (fun c => { c with transient_for := none }) s := by
  rw [breakTransientLoop]
  rw [if_pos hv]

theorem breakTransientLoop_step (self : Nat) (fuel : Nat) (v : Nat) (s : St)
    (hv : ¬ tf s v = some self) :
    breakTransientLoop self (fuel + 1) (some v) s =
      breakTransientLoop self fuel (tf s v) s := by
  rw [breakTransientLoop]
  rw [if_neg hv]

/-- If the chain from `h` dies without meeting an edge back to `self`,
the cycle loop is a no-op (given enough fuel). -/
theorem breakTransientLoop_nohit (self : Nat) (s : St) :
    ∀ (m h : Nat), iterTF s m h = none →
      (∀ i v, iterTF s i h = some v → ¬ tf s v = some self) →
      ∀ fuel, m ≤ fuel → breakTransientLoop self fuel (some h) s = s := by
  intro m
  induction m with
  | zero =>
    intro h h0
    exact absurd h0 (by simp [iterTF])
  | succ m ih =>
    intro h hnone hsafe fuel hfuel
    obtain ⟨fuel', rfl⟩ : ∃ f, fuel = f + 1 := ⟨fuel - 1, by omega⟩
    rw [breakTransientLoop_step self fuel' h s (hsafe 0 h rfl)]
    cases htf : tf s h with
    | none => exact breakTransientLoop_noneArg self fuel' s
    | some q =>
      apply ih q
      · have h1 : (tf s h).bind (iterTF s m) = none := hnone
        rw [htf] at h1
        exact h1
      · intro i v hv
        apply hsafe (i + 1) v
        show (tf s h).bind (iterTF s i) = some v
        rw [htf]
        exact hv
      · omega

/-- If the first node on the chain from `h` whose parent edge points
back at `self` sits at depth `j`, the cycle loop clears exactly that
edge (given enough fuel). -/
theorem breakTransientLoop_hitAt (self : Nat) (s : St) :
    ∀ (j h x : Nat), iterTF s j h = some x → tf s x = some self →
      (∀ i v, i < j → iterTF s i h = some v → ¬ tf s v = some self) →
      ∀ fuel, j + 1 ≤ fuel →
      breakTransientLoop self fuel (some h) s =
        updClient x (fun c => { c with transient_for := none }) s := by
  intro j
  induction j with
  | zero =>
    intro h x hx hhit _ fuel hfuel
    have hxh : x = h := by
      have h1 : (some h : Option Nat) = some x := hx
      exact (Option.some_inj.mp h1).symm
    subst hxh
    obtain ⟨fuel', rfl⟩ : ∃ f, fuel = f + 1 := ⟨fuel - 1, by omega⟩
    exact breakTransientLoop_hit self fuel' x s hhit
  | succ j ih =>
    intro h x hx hhit hfirst fuel hfuel
    obtain ⟨fuel', rfl⟩ : ∃ f, fuel = f + 1 := ⟨fuel - 1, by omega⟩
    rw [breakTransientLoop_step self fuel' h s (hfirst 0 h (by omega) rfl)]
    have hx' : (tf s h).bind (iterTF s j) = some x := hx
    cases htf : tf s h with
    | none =>
      rw [htf] at hx'
      exact absurd hx' (by simp)
    | some q =>
      rw [htf] at hx'
      apply ih q x hx' hhit
      · intro i v hi hv
        apply hfirst (i + 1) v (by omega)
        show (tf s h).bind (iterTF s i) = some v
        rw [htf]
        exact hv
      · omega

/-- Core invariant step: starting from a well-formed acyclic state in
which `h` has no parent edge, setting `transient_for` of `h` to a
registered client `p ≠ h` (the link made by `updateTransientInfo`) and
then running the cycle-breaking loop with the fuel used by
`updateTransientInfo` yields a well-formed acyclic state again. -/
theorem addEdge_break_inv (s2 : St) (h p : Nat)
    (hwf2 : WfEdges s2) (hac2 : Acyc s2) (hph : p ≠ h)
    (hhreg : (getClient s2 h).isSome) (hpreg : (getClient s2 p).isSome)
    (htfh : tf s2 h = none) (fuel : Nat)
    (hfuel : s2.clients.length + 2 ≤ fuel) :
    WfEdges (breakTransientLoop h fuel (some h)
        (updClient h (fun cc => { cc with transient_for := some p }) s2)) ∧
    Acyc (breakTransientLoop h fuel (some h)
        (updClient h (fun cc => { cc with transient_for := some p }) s2)) := by
  set s3 := updClient h (fun cc => { cc with transient_for := some p }) s2 with hs3
  have tf3 : ∀ x, tf s3 x = if x = h then some p else tf s2 x := by
    intro x
    rw [hs3]
    exact tf_updClient_set s2 h x (some p) hhreg
  have dom3 : ∀ q, (getClient s3 q).isSome = (getClient s2 q).isSome := by
    intro q
    rw [hs3]
    exact getClient_isSome_updClient s2 h q _
  have hwf3 : WfEdges s3 := by
    intro x v htf
    rw [tf3 x] at htf
    by_cases hx : x = h
    · rw [if_pos hx] at htf
      have hvp : p = v := Option.some_inj.mp htf
      rw [dom3, ← hvp]
      exact hpreg
    · rw [if_neg hx] at htf
      rw [dom3]
      exact hwf2 x v htf
  have hreg_chain : ∀ i v, iterTF s2 i p = some v → (getClient s2 v).isSome := by
    intro i v hv
    cases i with
    | zero =>
      have hv' : (some p : Option Nat) = some v := hv
      rw [← Option.some_inj.mp hv']
      exact hpreg
    | succ i =>
      rw [iterTF_succ_right] at hv
      cases hu : iterTF s2 i p with
      | none => rw [hu] at hv; exact absurd hv (by simp)
      | some u =>
        rw [hu] at hv
        exact hwf2 u v hv
  have hwalk : ∀ k, iterTF s3 (k + 1) h = iterTF s3 k p := by
    intro k
    show (tf s3 h).bind (iterTF s3 k) = iterTF s3 k p
    rw [tf3 h, if_pos rfl]
    rfl
  obtain ⟨m, hmle, hmnone⟩ := chain_terminates s2 hwf2 hac2 p
  by_cases hhit : ∃ i, ∃ v, iterTF s2 i p = some v ∧ tf s2 v = some h
  case neg =>
    push_neg at hhit
    have havoid : ∀ i v, iterTF s2 i p = some v → v ≠ h := by
      intro i v hv hveq
      rw [hveq] at hv
      cases i with
      | zero =>
        have hv' : (some p : Option Nat) = some h := hv
        exact hph (Option.some_inj.mp hv')
      | succ i =>
        rw [iterTF_succ_right] at hv
        cases hu : iterTF s2 i p with
        | none => rw [hu] at hv; exact absurd hv (by simp)
        | some u =>
          rw [hu] at hv
          exact hhit i u hu hv
    have hagree : ∀ k, iterTF s3 k p = iterTF s2 k p := by
      intro k
      exact (iterTF_agree_avoid s2 s3 (fun u => u = h)
        (fun u hu => by rw [tf3 u, if_neg hu]) k p
        (fun i v _ hv => havoid i v hv)).symm
    have hnohit3 : breakTransientLoop h fuel (some h) s3 = s3 := by
      apply breakTransientLoop_nohit h s3 (m + 1) h
      · rw [hwalk m, hagree m]
        exact hmnone
      · intro i v hv
        cases i with
        | zero =>
          have hv' : (some h : Option Nat) = some v := hv
          rw [← Option.some_inj.mp hv']
          rw [tf3 h, if_pos rfl]
          intro hcon
          exact hph (Option.some_inj.mp hcon)
        | succ k =>
          rw [hwalk k, hagree k] at hv
          have hvh := havoid k v hv
          rw [tf3 v, if_neg hvh]
          exact hhit k v hv
      · omega
    rw [hnohit3]
    refine ⟨hwf3, ?_⟩
    intro y n hn hcy
    by_cases hcyh : ∃ i, i < n ∧ iterTF s3 i y = some h
    · obtain ⟨i, hilt, hih⟩ := hcyh
      have hch : iterTF s3 n h = some h := cycle_rotate s3 hcy hih
      obtain ⟨n', rfl⟩ : ∃ n', n = n' + 1 := ⟨n - 1, by omega⟩
      rw [hwalk n', hagree n'] at hch
      exact havoid n' h hch rfl
    · push_neg at hcyh
      have heq := iterTF_agree_avoid s3 s2 (fun u => u = h)
        (fun u hu => by rw [tf3 u, if_neg hu]) n y
        (fun i v hi hv => by
          intro hveq
          subst hveq
          exact hcyh i hi hv)
      rw [heq] at hcy
      exact hac2 y n hn hcy
  case pos =>
    classical
    have hexP : ∃ i, ∃ v, iterTF s2 i p = some v ∧ tf s2 v = some h := hhit
    obtain ⟨vstar, hvstar, hvstarh⟩ := Nat.find_spec hexP
    have hmin : ∀ i, i < Nat.find hexP → ¬ ∃ v, iterTF s2 i p = some v ∧ tf s2 v = some h :=
      fun i hi => Nat.find_min hexP hi
    have havoid : ∀ i v, i ≤ Nat.find hexP → iterTF s2 i p = some v → v ≠ h := by
      intro i v hi hv hveq
      rw [hveq] at hv
      cases i with
      | zero =>
        have hv' : (some p : Option Nat) = some h := hv
        exact hph (Option.some_inj.mp hv')
      | succ k =>
        rw [iterTF_succ_right] at hv
        cases hu : iterTF s2 k p with
        | none => rw [hu] at hv; exact absurd hv (by simp)
        | some u =>
          rw [hu] at hv
          exact hmin k (by omega) ⟨u, hu, hv⟩
    have hvstar_ne : vstar ≠ h := havoid (Nat.find hexP) vstar le_rfl hvstar
    have hagree : ∀ k, k ≤ Nat.find hexP → iterTF s3 k p = iterTF s2 k p := by
      intro k hk
      exact (iterTF_agree_avoid s2 s3 (fun u => u = h)
        (fun u hu => by rw [tf3 u, if_neg hu]) k p
        (fun i v hi hv => havoid i v (by omega) hv)).symm
    have histar_lt : Nat.find hexP < m := by
      by_contra hge
      push_neg at hge
      have hnone := iterTF_none_le s2 hmnone hge
      rw [hnone] at hvstar
      exact absurd hvstar (by simp)
    have hclear : breakTransientLoop h fuel (some h) s3 =
        updClient vstar (fun c => { c with transient_for := none }) s3 := by
      apply breakTransientLoop_hitAt h s3 (Nat.find hexP + 1) h vstar
      · rw [hwalk (Nat.find hexP), hagree (Nat.find hexP) le_rfl]
        exact hvstar
      · rw [tf3 vstar, if_neg hvstar_ne]
        exact hvstarh
      · intro i v hi hv
        cases i with
        | zero =>
          have hv' : (some h : Option Nat) = some v := hv
          rw [← Option.some_inj.mp hv']
          rw [tf3 h, if_pos rfl]
          intro hcon
          exact hph (Option.some_inj.mp hcon)
        | succ k =>
          rw [hwalk k, hagree k (by omega)] at hv
          have hvne := havoid k v (by omega) hv
          rw [tf3 v, if_neg hvne]
          intro hcon
          exact hmin k (by omega) ⟨v, hv, hcon⟩
      · omega
    rw [hclear]
    set s4 := updClient vstar (fun c => { c with transient_for := none }) s3 with hs4
    have hvreg3 : (getClient s3 vstar).isSome := by
      rw [dom3]
      exact hreg_chain (Nat.find hexP) vstar hvstar
    have tf4 : ∀ x, tf s4 x = if x = vstar then none else tf s3 x := by
      intro x
      rw [hs4]
      exact tf_updClient_set s3 vstar x none hvreg3
    have dom4 : ∀ q, (getClient s4 q).isSome = (getClient s3 q).isSome := by
      intro q
      rw [hs4]
      exact getClient_isSome_updClient s3 vstar q _
    constructor
    · apply wfEdges_preserve s3 s4
      · intro x v htf
        rw [tf4 x] at htf
        by_cases hx : x = vstar
        · rw [if_pos hx] at htf
          exact absurd htf (by simp)
        · rw [if_neg hx] at htf
          exact htf
      · intro q hq
        rw [dom4 q]
        exact hq
      · exact hwf3
    · intro y n hn hcy
      by_cases hcyh : ∃ i, i < n ∧ iterTF s4 i y = some h
      · obtain ⟨i, hilt, hih⟩ := hcyh
        have hch : iterTF s4 n h = some h := cycle_rotate s4 hcy hih
        obtain ⟨n', rfl⟩ : ∃ n', n = n' + 1 := ⟨n - 1, by omega⟩
        have hwalk4 : iterTF s4 (n' + 1) h = iterTF s4 n' p := by
          show (tf s4 h).bind (iterTF s4 n') = iterTF s4 n' p
          rw [tf4 h, if_neg (Ne.symm hvstar_ne), tf3 h, if_pos rfl]
          rfl
        rw [hwalk4] at hch
        have hexQ : ∃ mm, iterTF s4 mm p = some h := ⟨n', hch⟩
        have hQ : iterTF s4 (Nat.find hexQ) p = some h := Nat.find_spec hexQ
        have hQmin : ∀ i, i < Nat.find hexQ → ¬ iterTF s4 i p = some h :=
          fun i hi => Nat.find_min hexQ hi
        have hvne4 : ∀ i v, i < Nat.find hexQ → iterTF s4 i p = some v →
            v ≠ h ∧ v ≠ vstar := by
          intro i v hi hv
          constructor
          · intro hveq
            subst hveq
            exact hQmin i hi hv
          · intro hveq
            subst hveq
            have hnext : iterTF s4 (i + 1) p = none := by
              rw [iterTF_succ_right, hv]
              show tf s4 v = none
              rw [tf4 v, if_pos rfl]
            have hall := iterTF_none_le s4 hnext (by omega : i + 1 ≤ Nat.find hexQ)
            rw [hall] at hQ
            exact absurd hQ (by simp)
        have hagree4 : ∀ k, k ≤ Nat.find hexQ → iterTF s4 k p = iterTF s2 k p := by
          intro k hk
          apply iterTF_agree_avoid s4 s2 (fun u => u = h ∨ u = vstar)
          · intro u hu
            push_neg at hu
            rw [tf4 u, if_neg hu.2, tf3 u, if_neg hu.1]
          · intro i v hi hv
            have hne := hvne4 i v (by omega) hv
            intro hor
            rcases hor with hveq | hveq
            · exact hne.1 hveq
            · exact hne.2 hveq
        have hs2mm : iterTF s2 (Nat.find hexQ) p = some h := by
          rw [← hagree4 (Nat.find hexQ) le_rfl]
          exact hQ
        obtain ⟨mm', hmm'⟩ : ∃ mm', Nat.find hexQ = mm' + 1 := by
          rcases Nat.eq_zero_or_pos (Nat.find hexQ) with h0 | h0
          · exfalso
            rw [h0] at hs2mm
            have hv' : (some p : Option Nat) = some h := hs2mm
            exact hph (Option.some_inj.mp hv')
          · exact ⟨Nat.find hexQ - 1, by omega⟩
        rw [hmm', iterTF_succ_right] at hs2mm
        cases hu : iterTF s2 mm' p with
        | none => rw [hu] at hs2mm; exact absurd hs2mm (by simp)
        | some u =>
          rw [hu] at hs2mm
          have histar_le : Nat.find hexP ≤ mm' := Nat.find_min' hexP ⟨u, hu, hs2mm⟩
          have hv4 : iterTF s4 (Nat.find hexP) p = some vstar := by
            rw [hagree4 (Nat.find hexP) (by omega)]
            exact hvstar
          exact (hvne4 (Nat.find hexP) vstar (by omega) hv4).2 rfl
      · push_neg at hcyh
        have havoidv : ∀ i, i < n → ¬ iterTF s4 i y = some vstar := by
          intro i hi hveq
          have hnext : iterTF s4 (i + 1) y = none := by
            rw [iterTF_succ_right, hveq]
            show tf s4 vstar = none
            rw [tf4 vstar, if_pos rfl]
          obtain ⟨u, hu⟩ := iterTF_some_le s4 hcy (by omega : i + 1 ≤ n)
          rw [hnext] at hu
          exact absurd hu (by simp)
        have heq := iterTF_agree_avoid s4 s2 (fun u => u = h ∨ u = vstar)
          (fun u hu => by
            rw [tf4 u, if_neg (fun hx => hu (Or.inr hx)), tf3 u,
              if_neg (fun hx => hu (Or.inl hx))])
          n y
          (fun i v hi hv => by
            intro hor
            rcases hor with hveq | hveq
            · subst hveq
              exact hcyh i hi hv
            · subst hveq
              exact havoidv i hi hv)
        rw [heq] at hcy
        exact hac2 y n hn hcy

theorem tf_removeModal (p : Nat) (s : St) (x : Nat) : tf (removeModal p s) x = tf s x :=
  tf_updClient_keep s p x _ (fun _ => rfl)

theorem tf_addModal (p : Nat) (s : St) (x : Nat) : tf (addModal p s) x = tf s x :=
  tf_updClient_keep s p x _ (fun _ => rfl)

theorem tf_unlinkChild (s : St) (p h x : Nat) :
    tf (updClient p
      (fun pc => { pc with transients := pc.transients.filter (fun x => x ≠ h) }) s) x =
      tf s x :=
  tf_updClient_keep s p x _ (fun _ => rfl)

theorem tf_appendChild (s : St) (p h x : Nat) :
    tf (updClient p (fun pc => { pc with transients := pc.transients ++ [h] }) s) x =
      tf s x :=
  tf_updClient_keep s p x _ (fun _ => rfl)

theorem breakTransientLoop_cases (self : Nat) :
    ∀ (fuel : Nat) (w : Option Nat) (s : St),
      breakTransientLoop self fuel w s = s ∨
        ∃ x, breakTransientLoop self fuel w s =
          updClient x (fun c => { c with transient_for := none }) s := by
  intro fuel
  induction fuel with
  | zero => intro w s; left; rfl
  | succ fuel ih =>
    intro w s
    cases w with
    | none => left; rfl
    | some v =>
      by_cases hv : tf s v = some self
      · right
        exact ⟨v, breakTransientLoop_hit self fuel v s hv⟩
      · rw [breakTransientLoop_step self fuel v s hv]
        exact ih (tf s v) s

theorem inv_of_subset (s s' : St)
    (hsub : ∀ x v, tf s' x = some v → tf s x = some v)
    (hdom : ∀ q, (getClient s' q).isSome = (getClient s q).isSome)
    (hwf : WfEdges s) (hac : Acyc s) : WfEdges s' ∧ Acyc s' :=
  ⟨wfEdges_preserve s s' hsub (fun q hq => by rw [hdom q]; exact hq) hwf,
   acyc_of_edge_subset s s' hsub hac⟩

theorem searchWindow_some {s : St} {win q : Nat} (hq : searchWindow s win = some q) :
    q = win ∧ (getClient s win).isSome := by
  unfold searchWindow at hq
  by_cases hw : (getClient s win).isSome
  · rw [if_pos hw] at hq
    exact ⟨(Option.some_inj.mp hq).symm, hw⟩
  · rw [if_neg hw] at hq
    exact absurd hq (by simp)

/-- `updateTransientInfo` preserves well-formedness and acyclicity of
the transient graph: this is the cycle-breaking guarantee of
WinClient.cc lines 330-334. -/
theorem updateTransientInfo_inv (h : Nat) (s : St) (hwf : WfEdges s) (hac : Acyc s) :
    WfEdges (updateTransientInfo h s) ∧ Acyc (updateTransientInfo h s) := by
  unfold updateTransientInfo
  cases hc : getClient s h with
  | none => exact ⟨hwf, hac⟩
  | some c =>
    have hhreg : (getClient s h).isSome = true := by rw [hc]; rfl
    dsimp only
    set s1 := (match c.transient_for with
      | some p =>
        let s' := updClient p
          (fun pc => { pc with transients := pc.transients.filter (fun x => x ≠ h) }) s
        if c.m_modal then removeModal p s' else s'
      | none => s) with hs1
    have h1tf : ∀ x, tf s1 x = tf s x := by
      intro x
      rw [hs1]
      cases c.transient_for with
      | none => rfl
      | some p =>
        dsimp only
        by_cases hm : c.m_modal
        · rw [if_pos hm]
          rw [tf_removeModal, tf_unlinkChild]
        · rw [if_neg hm]
          rw [tf_unlinkChild]
    have h1dom : ∀ q, (getClient s1 q).isSome = (getClient s q).isSome := by
      intro q
      rw [hs1]
      cases c.transient_for with
      | none => rfl
      | some p =>
        dsimp only
        by_cases hm : c.m_modal
        · rw [if_pos hm]
          unfold removeModal
          rw [getClient_isSome_updClient, getClient_isSome_updClient]
        · rw [if_neg hm]
          rw [getClient_isSome_updClient]
    have h1len : s1.clients.length = s.clients.length := by
      rw [hs1]
      cases c.transient_for with
      | none => rfl
      | some p =>
        dsimp only
        by_cases hm : c.m_modal
        · rw [if_pos hm]
          unfold removeModal
          rw [clients_length_updClient, clients_length_updClient]
        · rw [if_neg hm]
          rw [clients_length_updClient]
    set s2 := updClient h (fun cc => { cc with transient_for := none }) s1 with hs2
    have h1reg : (getClient s1 h).isSome = true := by rw [h1dom]; exact hhreg
    have h2tf : ∀ x, tf s2 x = if x = h then none else tf s x := by
      intro x
      rw [hs2, tf_updClient_set s1 h x none h1reg]
      by_cases hx : x = h
      · rw [if_pos hx, if_pos hx]
      · rw [if_neg hx, if_neg hx]
        exact h1tf x
    have h2dom : ∀ q, (getClient s2 q).isSome = (getClient s q).isSome := by
      intro q
      rw [hs2, getClient_isSome_updClient]
      exact h1dom q
    have h2len : s2.clients.length = s.clients.length := by
      rw [hs2, clients_length_updClient]
      exact h1len
    have h2sub : ∀ x v, tf s2 x = some v → tf s x = some v := by
      intro x v htf
      rw [h2tf x] at htf
      by_cases hx : x = h
      · rw [if_pos hx] at htf
        exact absurd htf (by simp)
      · rw [if_neg hx] at htf
        exact htf
    have h2inv : WfEdges s2 ∧ Acyc s2 := inv_of_subset s s2 h2sub h2dom hwf hac
    cases hth : c.thint with
    | none => exact h2inv
    | some win =>
      dsimp only
      by_cases hwh : win = h
      · rw [if_pos hwh]
        exact h2inv
      · rw [if_neg hwh]
        by_cases hwr : win ≠ 0 ∧ win = s.rootWin
        · rw [if_pos hwr]
          exact h2inv
        · rw [if_neg hwr]
          cases hsw : searchWindow s2 win with
          | none =>
            -- wait-list branch: the graph is unchanged and the loop is a no-op
            set s3 := addTransientWait win h (removeTransientFromWaitingList h s2) with hs3
            have h3tf : ∀ x, tf s3 x = tf s2 x := by
              intro x
              rw [hs3, tf_addWait, tf_rmWait]
            have h3dom : ∀ q, (getClient s3 q).isSome = (getClient s2 q).isSome := by
              intro q
              rw [hs3, getClient_addWait, getClient_rmWait]
            have h3inv : WfEdges s3 ∧ Acyc s3 :=
              inv_of_subset s2 s3 (fun x v hv => by rw [← h3tf x]; exact hv)
                h3dom h2inv.1 h2inv.2
            have h3tfh : tf s3 h = none := by
              rw [h3tf, h2tf, if_pos rfl]
            have hloop : breakTransientLoop h (s3.clients.length + 2) (some h) s3 = s3 := by
              have hne : ¬ tf s3 h = some h := by rw [h3tfh]; simp
              rw [breakTransientLoop_step h (s3.clients.length + 1) h s3 hne, h3tfh]
              exact breakTransientLoop_noneArg h _ s3
            rw [hloop]
            have h4tfh : tf s3 h = none := h3tfh
            rw [h4tfh]
            exact h3inv
          | some q =>
            obtain ⟨hqw, hwreg⟩ := searchWindow_some hsw
            subst hqw
            set s3 := updClient h (fun cc => { cc with transient_for := some q }) s2 with hs3
            have h2hreg : (getClient s2 h).isSome := by rw [h2dom]; exact hhreg
            have h2tfh : tf s2 h = none := by rw [h2tf, if_pos rfl]
            have hcore := addEdge_break_inv s2 h q h2inv.1 h2inv.2 hwh h2hreg hwreg h2tfh
              (s3.clients.length + 2)
              (by simp only [hs3, clients_length_updClient]; omega)
            rw [← hs3] at hcore
            set s4 := breakTransientLoop h (s3.clients.length + 2) (some h) s3 with hs4
            have h4dom : ∀ x, (getClient s4 x).isSome = (getClient s2 x).isSome := by
              intro x
              rcases breakTransientLoop_cases h (s3.clients.length + 2) (some h) s3 with
                hcase | ⟨z, hcase⟩
              · rw [hs4, hcase, hs3, getClient_isSome_updClient]
              · rw [hs4, hcase, getClient_isSome_updClient, hs3, getClient_isSome_updClient]
            cases htf4 : tf s4 h with
            | none => exact hcore
            | some p =>
              dsimp only
              have h4preg : (getClient s4 p).isSome := hcore.1 h p htf4
              have h5tf : ∀ x, tf (updClient p
                  (fun pc => { pc with transients := pc.transients ++ [h] }) s4) x = tf s4 x :=
                fun x => tf_appendChild s4 p h x
              by_cases hm : c.m_modal
              · rw [if_pos hm]
                apply inv_of_subset s4 _ _ _ hcore.1 hcore.2
                · intro x v hv
                  rw [tf_addModal, h5tf x] at hv
                  exact hv
                · intro x
                  unfold addModal
                  rw [getClient_isSome_updClient, getClient_isSome_updClient]
              · rw [if_neg hm]
                apply inv_of_subset s4 _ _ _ hcore.1 hcore.2
                · intro x v hv
                  rw [h5tf x] at hv
                  exact hv
                · intro x
                  rw [getClient_isSome_updClient]

theorem getClient_cons (s : St) (h : Nat) (d : MClient) (x : Nat) :
    getClient { s with clients := (h, d) :: s.clients } x =
      if x = h then some d else getClient s x := by
  unfold getClient
  by_cases hx : x = h
  · simp [List.lookup, hx]
  · have hb : (x == h) = false := by simp [hx]
    simp [List.lookup, hb, hx]

theorem foldl_updateTransientInfo_inv (l : List Nat) (s : St)
    (hwf : WfEdges s) (hac : Acyc s) :
    WfEdges (l.foldl (fun st w => updateTransientInfo w st) s) ∧
    Acyc (l.foldl (fun st w => updateTransientInfo w st) s) := by
  induction l generalizing s with
  | nil => exact ⟨hwf, hac⟩
  | cons w rest ih =>
    have hw := updateTransientInfo_inv w s hwf hac
    exact ih (updateTransientInfo w s) hw.1 hw.2

/-- The `WinClient` constructor preserves well-formedness and
acyclicity of the transient graph. -/
theorem register_inv (h : Nat) (hint : Option Nat) (s : St)
    (hwf : WfEdges s) (hac : Acyc s) :
    WfEdges (register h hint s) ∧ Acyc (register h hint s) := by
  unfold register
  set s1 : St := { s with clients := (h, ({ thint := hint } : MClient)) :: s.clients } with hs1
  have h1tf : ∀ x, tf s1 x = if x = h then none else tf s x := by
    intro x
    unfold tf
    rw [hs1, getClient_cons]
    by_cases hx : x = h
    · rw [if_pos hx, if_pos hx]
      rfl
    · rw [if_neg hx, if_neg hx]
  have h1dom : ∀ q, (getClient s q).isSome → (getClient s1 q).isSome := by
    intro q hq
    rw [hs1, getClient_cons]
    by_cases hq' : q = h
    · rw [if_pos hq']
      rfl
    · rw [if_neg hq']
      exact hq
  have h1sub : ∀ x v, tf s1 x = some v → tf s x = some v := by
    intro x v htf
    rw [h1tf x] at htf
    by_cases hx : x = h
    · rw [if_pos hx] at htf
      exact absurd htf (by simp)
    · rw [if_neg hx] at htf
      exact htf
  have h1inv : WfEdges s1 ∧ Acyc s1 := by
    constructor
    · intro x v htf
      exact h1dom v (hwf x v (h1sub x v htf))
    · exact acyc_of_edge_subset s s1 h1sub hac
  have h2inv := foldl_updateTransientInfo_inv ((s1.s_transient_wait.lookup h).getD []) s1
    h1inv.1 h1inv.2
  set s2 := ((s1.s_transient_wait.lookup h).getD []).foldl
    (fun st w => updateTransientInfo w st) s1 with hs2
  have h3tf : ∀ x, tf (eraseTransientWait h s2) x = tf s2 x := fun x => tf_eraseWait h s2 x
  have h3inv : WfEdges (eraseTransientWait h s2) ∧ Acyc (eraseTransientWait h s2) :=
    inv_of_subset s2 _ (fun x v hv => by rw [← h3tf x]; exact hv)
      (fun q => by rw [getClient_eraseWait]) h2inv.1 h2inv.2
  exact updateTransientInfo_inv h _ h3inv.1 h3inv.2

/-- Re-resolution of the transient hint preserves well-formedness and
acyclicity. -/
theorem relink_inv (h : Nat) (hint : Option Nat) (s : St)
    (hwf : WfEdges s) (hac : Acyc s) :
    WfEdges (relink h hint s) ∧ Acyc (relink h hint s) := by
  unfold relink
  set s1 := updClient h (fun c => { c with thint := hint }) s with hs1
  have h1tf : ∀ x, tf s1 x = tf s x := by
    intro x
    rw [hs1]
    exact tf_updClient_keep s h x _ (fun _ => rfl)
  have h1inv : WfEdges s1 ∧ Acyc s1 :=
    inv_of_subset s s1 (fun x v hv => by rw [← h1tf x]; exact hv)
      (fun q => by rw [hs1, getClient_isSome_updClient]) hwf hac
  exact updateTransientInfo_inv h s1 h1inv.1 h1inv.2

theorem reach_inv (s : St) (hs : Reach s) : WfEdges s ∧ Acyc s := by
  induction hs with
  | init root menu =>
    constructor
    · intro x v htf
      exact absurd htf (by simp [tf, getClient, List.lookup])
    · intro y n hn hcy
      obtain ⟨n', rfl⟩ : ∃ n', n = n' + 1 := ⟨n - 1, by omega⟩
      have h0 : tf { rootWin := root, menuLayer := menu : St } y = none := by
        simp [tf, getClient, List.lookup]
      have h1 : iterTF { rootWin := root, menuLayer := menu : St } (n' + 1) y = none := by
        show (tf _ y).bind _ = none
        rw [h0]
        rfl
      rw [h1] at hcy
      exact absurd hcy (by simp)
  | register s h hint _ _ _ ih => exact register_inv h hint s ih.1 ih.2
  | relink s h hint _ _ ih => exact relink_inv h hint s ih.1 ih.2

/-- C1: for every registered WinClient and after every sequence of
register (constructor) and relink (`updateTransientInfo`) operations,
the `transient_for` relation is acyclic: no chain obtained by following
`transient_for` from any client returns to that client; any cycle the
relink would introduce is broken by clearing the offending edge before
the operation returns (WinClient.cc lines 330-334). -/
theorem transient_relation_acyclic (s : St) (hs : Reach s) :
    ∀ h n, 0 < n → iterTF s n h ≠ some h :=
  (reach_inv s hs).2

theorem transient_relation_acyclic_witness :
    Reach (register 2 (some 1) (register 1 (some 2) { rootWin := 99, menuLayer := 0 })) ∧
    iterTF (register 2 (some 1) (register 1 (some 2) { rootWin := 99, menuLayer := 0 }))
      2 2 ≠ some 2 := by
  have h1 : Reach ({ rootWin := 99, menuLayer := 0 } : St) := Reach.init 99 0
  have h2 : Reach (register 1 (some 2) { rootWin := 99, menuLayer := 0 }) :=
    Reach.register _ 1 (some 2) h1 (by decide) (by decide)
  have h3 : Reach (register 2 (some 1) (register 1 (some 2) { rootWin := 99, menuLayer := 0 })) :=
    Reach.register _ 2 (some 1) h2 (by decide) (by decide)
  exact ⟨h3, transient_relation_acyclic _ h3 2 2 (by decide)⟩

theorem lookup_map_val {β : Type} (g : Nat → β → β) (k : Nat) (l : List (Nat × β)) :
    (l.map (fun kl => (kl.1, g kl.1 kl.2))).lookup k =
      (l.lookup k).map (fun v => g k v) := by
  induction l with
  | nil => rfl
  | cons kl rest ih =>
    by_cases hk : k = kl.1
    · subst hk
      simp [List.lookup]
    · have hb : (k == kl.1) = false := by simp [hk]
      simp only [List.map_cons, List.lookup, hb]
      exact ih

theorem lookup_filter_none {β : Type} (q : Nat × β → Bool) (k : Nat) (l : List (Nat × β))
    (hl : l.lookup k = none) : (l.filter q).lookup k = none := by
  induction l with
  | nil => rfl
  | cons kl rest ih =>
    by_cases hk : k = kl.1
    · subst hk
      simp [List.lookup] at hl
    · have hb : (k == kl.1) = false := by simp [hk]
      simp only [List.lookup, hb] at hl
      by_cases hq : q kl
      · simp only [List.filter, hq, List.lookup, hb]
        exact ih hl
      · simp only [List.filter, hq]
        exact ih hl

theorem lookup_append_of_none {β : Type} (l1 l2 : List (Nat × β)) (k : Nat)
    (h : l1.lookup k = none) : (l1 ++ l2).lookup k = l2.lookup k := by
  induction l1 with
  | nil => rfl
  | cons kl rest ih =>
    by_cases hk : k = kl.1
    · subst hk
      simp [List.lookup] at h
    · have hb : (k == kl.1) = false := by simp [hk]
      simp only [List.lookup, hb] at h
      simp only [List.cons_append, List.lookup, hb]
      exact ih h

theorem lookup_append_of_some {β : Type} (l1 l2 : List (Nat × β)) (k : Nat) (v : β)
    (h : l1.lookup k = some v) : (l1 ++ l2).lookup k = some v := by
  induction l1 with
  | nil => simp [List.lookup] at h
  | cons kl rest ih =>
    by_cases hk : k = kl.1
    · subst hk
      simp only [List.lookup, beq_self_eq_true] at h ⊢
      simpa using h
    · have hb : (k == kl.1) = false := by simp [hk]
      simp only [List.lookup, hb] at h
      simp only [List.cons_append, List.lookup, hb]
      exact ih h

theorem mem_of_lookup_eq_some {β : Type} {l : List (Nat × β)} {k : Nat} {v : β}
    (h : l.lookup k = some v) : (k, v) ∈ l := by
  induction l with
  | nil => simp [List.lookup] at h
  | cons kl rest ih =>
    by_cases hk : k = kl.1
    · subst hk
      simp only [List.lookup, beq_self_eq_true, Option.some.injEq] at h
      subst h
      exact List.mem_cons_self _ _
    · have hb : (k == kl.1) = false := by simp [hk]
      simp only [List.lookup, hb] at h
      exact List.mem_cons_of_mem _ (ih h)

theorem wait_updClient (h : Nat) (g : MClient → MClient) (s : St) :
    (updClient h g s).s_transient_wait = s.s_transient_wait := rfl

theorem rootWin_updClient (h : Nat) (g : MClient → MClient) (s : St) :
    (updClient h g s).rootWin = s.rootWin := rfl

theorem rootWin_rmWait (x : Nat) (s : St) :
    (removeTransientFromWaitingList x s).rootWin = s.rootWin := rfl

theorem getClient_updClient_none (s : St) (h x : Nat) (g : MClient → MClient)
    (hx : getClient s x = none) : getClient (updClient h g s) x = none := by
  rw [getClient_updClient]
  by_cases hh : x = h
  · rw [if_pos hh, hx]
    rfl
  · rw [if_neg hh]
    exact hx

theorem rmWait_lookup_none (x : Nat) (s : St) (k : Nat)
    (h : s.s_transient_wait.lookup k = none) :
    (removeTransientFromWaitingList x s).s_transient_wait.lookup k = none := by
  have h2 : (s.s_transient_wait.map
      (fun kl => (kl.1, kl.2.filter (fun y => y ≠ x)))).lookup k = none := by
    have h3 := lookup_map_val (fun _ v => v.filter (fun y => y ≠ x)) k s.s_transient_wait
    rw [h] at h3
    exact h3
  exact lookup_filter_none _ k _ h2

theorem rmWait_not_mem (x : Nat) (s : St) (k : Nat) (l : List Nat)
    (h : (removeTransientFromWaitingList x s).s_transient_wait.lookup k = some l) :
    x ∉ l := by
  unfold removeTransientFromWaitingList at h
  dsimp only at h
  have hmem := mem_of_lookup_eq_some h
  have hmem2 := List.mem_of_mem_filter hmem
  obtain ⟨kl, hkl, heq⟩ := List.mem_map.mp hmem2
  have hl : kl.2.filter (fun y => y ≠ x) = l := congrArg Prod.snd heq
  intro hx
  rw [← hl] at hx
  simp [List.mem_filter] at hx

theorem lookup_filter_keyne {β : Type} (w : Nat) (l : List (Nat × β)) :
    (l.filter (fun kl => kl.1 ≠ w)).lookup w = none := by
  induction l with
  | nil => rfl
  | cons kl rest ih =>
    by_cases hw : kl.1 = w
    · have hd : (decide ¬(kl.1 = w)) = false := by simp [hw]
      simp only [List.filter, ne_eq, hd]
      exact ih
    · have hd : (decide ¬(kl.1 = w)) = true := by simp [hw]
      simp only [List.filter, ne_eq, hd]
      have hb : (w == kl.1) = false := by simp [Ne.symm hw]
      simp only [List.lookup, hb]
      exact ih

theorem lookup_filter_keyne_other {β : Type} (w k : Nat) (hk : k ≠ w) (l : List (Nat × β)) :
    (l.filter (fun kl => kl.1 ≠ w)).lookup k = l.lookup k := by
  induction l with
  | nil => rfl
  | cons kl rest ih =>
    by_cases hw : kl.1 = w
    · have hd : (decide ¬(kl.1 = w)) = false := by simp [hw]
      simp only [List.filter, ne_eq, hd]
      have hb : (k == kl.1) = false := by simp [hw, hk]
      simp only [List.lookup, hb]
      exact ih
    · have hd : (decide ¬(kl.1 = w)) = true := by simp [hw]
      simp only [List.filter, ne_eq, hd]
      by_cases hkk : k = kl.1
      · subst hkk
        simp [List.lookup]
      · have hb : (k == kl.1) = false := by simp [hkk]
        simp only [List.lookup, hb]
        exact ih

theorem addWait_lookup_absent (w x : Nat) (s : St)
    (h : s.s_transient_wait.lookup w = none) :
    (addTransientWait w x s).s_transient_wait.lookup w = some [x] := by
  unfold addTransientWait
  rw [h]
  simp only [Option.isSome_none, Bool.false_eq_true, if_false]
  rw [lookup_append_of_none _ _ _ h]
  simp [List.lookup]

theorem addWait_lookup_other (w x k : Nat) (s : St) (hk : k ≠ w) :
    (addTransientWait w x s).s_transient_wait.lookup k = s.s_transient_wait.lookup k := by
  unfold addTransientWait
  split_ifs with hi
  · have h3 := lookup_map_if (fun l => l ++ [x]) w k s.s_transient_wait
    rw [if_neg hk] at h3
    exact h3
  · cases hc : s.s_transient_wait.lookup k with
    | none =>
      show (s.s_transient_wait ++ [(w, [x])]).lookup k = none
      rw [lookup_append_of_none _ _ _ hc]
      have hb : (k == w) = false := by simp [hk]
      simp [List.lookup, hb]
    | some v => exact lookup_append_of_some _ _ _ _ hc

theorem eraseWait_lookup_self (w : Nat) (s : St) :
    (eraseTransientWait w s).s_transient_wait.lookup w = none :=
  lookup_filter_keyne w s.s_transient_wait

theorem eraseWait_lookup_other (w k : Nat) (hk : k ≠ w) (s : St) :
    (eraseTransientWait w s).s_transient_wait.lookup k = s.s_transient_wait.lookup k :=
  lookup_filter_keyne_other w k hk s.s_transient_wait

theorem getClient_unlinkParent_none (h : Nat) (c : MClient) (s : St) (x : Nat)
    (hx : getClient s x = none) : getClient (unlinkParent h c s) x = none := by
  unfold unlinkParent
  cases c.transient_for with
  | none => exact hx
  | some p =>
    dsimp only
    split_ifs
    · exact getClient_updClient_none _ _ _ _ (getClient_updClient_none _ _ _ _ hx)
    · exact getClient_updClient_none _ _ _ _ hx

theorem getClient_unlinkParent_isSome (h : Nat) (c : MClient) (s : St) (x : Nat) :
    (getClient (unlinkParent h c s) x).isSome = (getClient s x).isSome := by
  unfold unlinkParent
  cases c.transient_for with
  | none => rfl
  | some p =>
    dsimp only
    split_ifs
    · rw [removeModal, getClient_isSome_updClient, getClient_isSome_updClient]
    · rw [getClient_isSome_updClient]

theorem rootWin_unlinkParent (h : Nat) (c : MClient) (s : St) :
    (unlinkParent h c s).rootWin = s.rootWin := by
  unfold unlinkParent
  cases c.transient_for with
  | none => rfl
  | some p =>
    dsimp only
    split_ifs <;> rfl

theorem wait_unlinkParent (h : Nat) (c : MClient) (s : St) :
    (unlinkParent h c s).s_transient_wait = s.s_transient_wait := by
  unfold unlinkParent
  cases c.transient_for with
  | none => rfl
  | some p =>
    dsimp only
    split_ifs <;> rfl

theorem tf_unlinkParent (h : Nat) (c : MClient) (s : St) (x : Nat) :
    tf (unlinkParent h c s) x = tf s x := by
  unfold unlinkParent
  cases c.transient_for with
  | none => rfl
  | some p =>
    dsimp only
    split_ifs
    · rw [tf_removeModal, tf_updClient_keep]
      intro cc
      rfl
    · rw [tf_updClient_keep]
      intro cc
      rfl

/-- `updateTransientInfo` with the registry read resolved and the unlink
step named: a pure restatement of the definition used by the execution
lemmas. -/
theorem updateTransientInfo_eq (h : Nat) (s : St) (c : MClient)
    (hc : getClient s h = some c) :
    updateTransientInfo h s =
      (let s2 := updClient h (fun cc => { cc with transient_for := none })
        (unlinkParent h c s)
       match c.thint with
       | none => s2
       | some win =>
         if win = h then s2
         else if win ≠ 0 ∧ win = s.rootWin then s2
         else
           let s3 :=
             match searchWindow s2 win with
             | some p => updClient h (fun cc => { cc with transient_for := some p }) s2
             | none => addTransientWait win h (removeTransientFromWaitingList h s2)
           let s4 := breakTransientLoop h (s3.clients.length + 2) (some h) s3
           match tf s4 h with
           | some p =>
             let s5 := updClient p (fun pc => { pc with transients := pc.transients ++ [h] }) s4
             if c.m_modal then addModal p s5 else s5
           | none => s4) := by
  unfold updateTransientInfo unlinkParent
  rw [hc]

/-- Execution of `updateTransientInfo` when the hinted parent is not yet
registered (WinClient.cc lines 308-313): the client drops its parent
edge, is removed from every wait list it occupies and is appended to the
wait list keyed by the hinted handle. -/
theorem updateTransientInfo_notFound (h win : Nat) (s : St) (c : MClient)
    (hc : getClient s h = some c) (hth : c.thint = some win) (hwh : win ≠ h)
    (hwr : ¬(win ≠ 0 ∧ win = s.rootWin))
    (hnreg : getClient s win = none) :
    updateTransientInfo h s =
      addTransientWait win h (removeTransientFromWaitingList h
        (updClient h (fun cc => { cc with transient_for := none }) (unlinkParent h c s))) := by
  rw [updateTransientInfo_eq h s c hc]
  set S2 := updClient h (fun cc => { cc with transient_for := none }) (unlinkParent h c s)
    with hS2
  dsimp only
  rw [hth]
  dsimp only
  rw [if_neg hwh, if_neg hwr]
  have hs2w : getClient S2 win = none := by
    rw [hS2]
    exact getClient_updClient_none _ _ _ _ (getClient_unlinkParent_none _ _ _ _ hnreg)
  have hsw : searchWindow S2 win = none := by
    simp [searchWindow, hs2w]
  rw [hsw]
  dsimp only
  have hregU : (getClient (unlinkParent h c s) h).isSome := by
    rw [getClient_unlinkParent_isSome, hc]
    rfl
  have htfS2 : tf S2 h = none := by
    rw [hS2, tf_updClient_set _ _ _ _ hregU, if_pos rfl]
  have htf3 : tf (addTransientWait win h (removeTransientFromWaitingList h S2)) h = none := by
    rw [tf_addWait, tf_rmWait]
    exact htfS2
  have hloop : breakTransientLoop h
      ((addTransientWait win h (removeTransientFromWaitingList h S2)).clients.length + 2)
      (some h) (addTransientWait win h (removeTransientFromWaitingList h S2)) =
      addTransientWait win h (removeTransientFromWaitingList h S2) := by
    rw [breakTransientLoop_step _ _ _ _ (by rw [htf3]; simp), htf3, breakTransientLoop_noneArg]
  rw [hloop, htf3]

/-- Execution of `updateTransientInfo` when the hinted parent is
registered and itself has no parent (so the cycle loop is a no-op): the
client is unlinked from its previous parent, its edge is set to the
hinted parent, and it is appended to that parent's transient list (with
a modal-count bump when modal). -/
theorem updateTransientInfo_found (h win : Nat) (s : St) (c : MClient)
    (hc : getClient s h = some c) (hth : c.thint = some win) (hwh : win ≠ h)
    (hwr : ¬(win ≠ 0 ∧ win = s.rootWin))
    (hreg : (getClient s win).isSome)
    (htfw : tf s win = none) :
    updateTransientInfo h s =
      (let s3 := updClient h (fun cc => { cc with transient_for := some win })
        (updClient h (fun cc => { cc with transient_for := none }) (unlinkParent h c s))
       let s5 := updClient win (fun pc => { pc with transients := pc.transients ++ [h] }) s3
       if c.m_modal then addModal win s5 else s5) := by
  rw [updateTransientInfo_eq h s c hc]
  set S2 := updClient h (fun cc => { cc with transient_for := none }) (unlinkParent h c s)
    with hS2
  dsimp only
  rw [hth]
  dsimp only
  rw [if_neg hwh, if_neg hwr]
  have hs2w : (getClient S2 win).isSome := by
    rw [hS2, getClient_isSome_updClient, getClient_unlinkParent_isSome]
    exact hreg
  have hsw : searchWindow S2 win = some win := by
    simp [searchWindow, hs2w]
  rw [hsw]
  dsimp only
  set S3 := updClient h (fun cc => { cc with transient_for := some win }) S2 with hS3
  have hregU : (getClient (unlinkParent h c s) h).isSome := by
    rw [getClient_unlinkParent_isSome, hc]
    rfl
  have hregS2h : (getClient S2 h).isSome := by
    rw [hS2, getClient_isSome_updClient]
    exact hregU
  have htf3h : tf S3 h = some win := by
    rw [hS3, tf_updClient_set _ _ _ _ hregS2h, if_pos rfl]
  have htf3w : tf S3 win = none := by
    rw [hS3, tf_updClient_set _ _ _ _ hregS2h, if_neg hwh, hS2,
      tf_updClient_set _ _ _ _ hregU, if_neg hwh, tf_unlinkParent]
    exact htfw
  have hloop : breakTransientLoop h (S3.clients.length + 2) (some h) S3 = S3 := by
    rw [breakTransientLoop_step _ _ _ _ (by rw [htf3h]; simp [hwh]), htf3h,
      breakTransientLoop_step _ _ _ _ (by rw [htf3w]; simp), htf3w,
      breakTransientLoop_noneArg]
  rw [hloop, htf3h]

theorem rootWin_addWait (w x : Nat) (s : St) :
    (addTransientWait w x s).rootWin = s.rootWin := by
  unfold addTransientWait
  split_ifs <;> rfl

/-- A client registering with a hint naming an unregistered handle ends
up on the wait list keyed by that handle: full expansion of
`register b (some a)` when `a` is absent from the registry, `a` is not
the root window and nobody waits for `b`. -/
theorem register_waiting (s : St) (a b : Nat)
    (ha : getClient s a = none) (hab : a ≠ b) (haroot : a ≠ s.rootWin)
    (hwaitb : s.s_transient_wait.lookup b = none) :
    register b (some a) s =
      addTransientWait a b (removeTransientFromWaitingList b
        (updClient b (fun cc => { cc with transient_for := none })
          (eraseTransientWait b
            { s with clients := (b, ({ thint := some a } : MClient)) :: s.clients }))) := by
  have hreg1 : register b (some a) s =
      updateTransientInfo b (eraseTransientWait b
        { s with clients := (b, ({ thint := some a } : MClient)) :: s.clients }) := by
    unfold register
    dsimp only
    rw [hwaitb]
    rfl
  rw [hreg1]
  have hgb : getClient (eraseTransientWait b
      { s with clients := (b, ({ thint := some a } : MClient)) :: s.clients }) b =
      some ({ thint := some a } : MClient) := by
    rw [getClient_eraseWait, getClient_cons, if_pos rfl]
  have hwr : ¬(a ≠ 0 ∧ a = (eraseTransientWait b
      { s with clients := (b, ({ thint := some a } : MClient)) :: s.clients }).rootWin) := by
    intro hcon
    exact haroot hcon.2
  have hna : getClient (eraseTransientWait b
      { s with clients := (b, ({ thint := some a } : MClient)) :: s.clients }) a = none := by
    rw [getClient_eraseWait, getClient_cons, if_neg hab]
    exact ha
  have hnf := updateTransientInfo_notFound b a _ ({ thint := some a } : MClient)
    hgb rfl hab hwr hna
  rw [hnf]
  rfl

/-- Execution of `updateTransientInfo` when the client carries no
WM_TRANSIENT_FOR hint: the function only unlinks from the previous
parent and clears the edge (WinClient.cc lines 286-301). -/
theorem updateTransientInfo_noHint (h : Nat) (s : St) (c : MClient)
    (hc : getClient s h = some c) (hth : c.thint = none) :
    updateTransientInfo h s =
      updClient h (fun cc => { cc with transient_for := none }) (unlinkParent h c s) := by
  rw [updateTransientInfo_eq h s c hc]
  dsimp only
  rw [hth]

/-- Once the awaited handle registers, the wait-list entry is resolved:
the waiter's parent edge is set and it enters the new client's transient
list, and the entry is erased. -/
theorem register_resolves (s : St) (a b : Nat)
    (ha : getClient s a = none) (hab : a ≠ b) (haroot : a ≠ s.rootWin)
    (hwaita : s.s_transient_wait.lookup a = none)
    (hwaitb : s.s_transient_wait.lookup b = none) :
    tf (register a none (register b (some a) s)) b = some a ∧
    (∃ ca, getClient (register a none (register b (some a) s)) a = some ca ∧
      b ∈ ca.transients) ∧
    (register a none (register b (some a) s)).s_transient_wait.lookup a = none := by
  rw [register_waiting s a b ha hab haroot hwaitb]
  set SR := addTransientWait a b (removeTransientFromWaitingList b
      (updClient b (fun cc => { cc with transient_for := none })
        (eraseTransientWait b
          { s with clients := (b, ({ thint := some a } : MClient)) :: s.clients })))
    with hSRdef
  have f1 : getClient SR b = some ({ thint := some a } : MClient) := by
    rw [hSRdef, getClient_addWait, getClient_rmWait, getClient_updClient, if_pos rfl,
      getClient_eraseWait, getClient_cons, if_pos rfl]
    rfl
  have f3 : SR.s_transient_wait.lookup a = some [b] := by
    rw [hSRdef]
    apply addWait_lookup_absent
    apply rmWait_lookup_none
    rw [wait_updClient, eraseWait_lookup_other b a hab]
    exact hwaita
  have f4 : SR.rootWin = s.rootWin := by
    rw [hSRdef, rootWin_addWait, rootWin_rmWait, rootWin_updClient]
    rfl
  have hreg2 : register a none SR =
      updateTransientInfo a (eraseTransientWait a (updateTransientInfo b
        { SR with clients := (a, ({ thint := none } : MClient)) :: SR.clients })) := by
    unfold register
    dsimp only
    rw [f3]
    rfl
  rw [hreg2]
  set s1 := { SR with clients := (a, ({ thint := none } : MClient)) :: SR.clients }
    with hs1def
  have hgb1 : getClient s1 b = some ({ thint := some a } : MClient) := by
    rw [hs1def, getClient_cons, if_neg (Ne.symm hab)]
    exact f1
  have hga1 : (getClient s1 a).isSome := by
    rw [hs1def, getClient_cons, if_pos rfl]
    rfl
  have htfa1 : tf s1 a = none := by
    unfold tf
    rw [hs1def, getClient_cons, if_pos rfl]
    rfl
  have hwr1 : ¬(a ≠ 0 ∧ a = s1.rootWin) := by
    intro hcon
    apply haroot
    rw [← f4]
    have h5 : s1.rootWin = SR.rootWin := by rw [hs1def]
    rw [← h5]
    exact hcon.2
  have hfound := updateTransientInfo_found b a s1 ({ thint := some a } : MClient)
    hgb1 rfl hab hwr1 hga1 htfa1
  rw [hfound]
  dsimp only
  rw [show unlinkParent b ({ thint := some a } : MClient) s1 = s1 from rfl]
  rw [if_neg (show ¬(({ thint := some a } : MClient).m_modal = true) from Bool.false_ne_true)]
  have hga5 : getClient (updClient a (fun pc => { pc with transients := pc.transients ++ [b] })
      (updClient b (fun cc => { cc with transient_for := some a })
        (updClient b (fun cc => { cc with transient_for := none }) s1))) a =
      some ({ thint := none, transients := [b] } : MClient) := by
    rw [getClient_updClient, if_pos rfl, getClient_updClient, if_neg hab,
      getClient_updClient, if_neg hab, hs1def, getClient_cons, if_pos rfl]
    rfl
  have hnoHint := updateTransientInfo_noHint a
    (eraseTransientWait a (updClient a (fun pc => { pc with transients := pc.transients ++ [b] })
      (updClient b (fun cc => { cc with transient_for := some a })
        (updClient b (fun cc => { cc with transient_for := none }) s1))))
    ({ thint := none, transients := [b] } : MClient)
    (by rw [getClient_eraseWait]; exact hga5) rfl
  rw [hnoHint]
  have hunl : ∀ X : St, unlinkParent a ({ thint := none, transients := [b] } : MClient) X = X :=
    fun X => rfl
  rw [hunl]
  have hsomeFa : (getClient (eraseTransientWait a
      (updClient a (fun pc => { pc with transients := pc.transients ++ [b] })
        (updClient b (fun cc => { cc with transient_for := some a })
          (updClient b (fun cc => { cc with transient_for := none }) s1)))) a).isSome := by
    rw [getClient_eraseWait, hga5]
    rfl
  have hYb : (getClient (updClient b (fun cc => { cc with transient_for := none }) s1) b).isSome := by
    rw [getClient_isSome_updClient, hgb1]
    rfl
  refine ⟨?_, ⟨({ thint := none, transients := [b] } : MClient), ?_, ?_⟩, ?_⟩
  · rw [tf_updClient_set _ _ _ _ hsomeFa, if_neg (Ne.symm hab), tf_eraseWait,
      tf_appendChild, tf_updClient_set _ _ _ _ hYb, if_pos rfl]
  · rw [getClient_updClient, if_pos rfl, getClient_eraseWait, hga5]
    rfl
  · simp
  · rw [wait_updClient]
    exact eraseWait_lookup_self a _

/-- C5: for clients A and B with B declaring itself transient for A's
handle before A is registered (modelled as `register b (some a)` on a
state where `a` is absent), B is placed on the wait-list entry keyed by
A's handle and occupies no other entry; once A registers, the wait-list
entry for A's handle is resolved and removed, B's `transient_for`
becomes A and A's transient list contains B. -/
theorem transient_wait_resolution (s : St) (a b : Nat)
    (ha : getClient s a = none) (hab : a ≠ b) (haroot : a ≠ s.rootWin)
    (hwaita : s.s_transient_wait.lookup a = none)
    (hwaitb : s.s_transient_wait.lookup b = none) :
    ((register b (some a) s).s_transient_wait.lookup a = some [b] ∧
      (∀ k l, k ≠ a →
        (register b (some a) s).s_transient_wait.lookup k = some l → b ∉ l)) ∧
    (tf (register a none (register b (some a) s)) b = some a ∧
      (∃ ca, getClient (register a none (register b (some a) s)) a = some ca ∧
        b ∈ ca.transients) ∧
      (register a none (register b (some a) s)).s_transient_wait.lookup a = none) := by
  refine ⟨⟨?_, ?_⟩, register_resolves s a b ha hab haroot hwaita hwaitb⟩
  · rw [register_waiting s a b ha hab haroot hwaitb]
    apply addWait_lookup_absent
    apply rmWait_lookup_none
    rw [wait_updClient, eraseWait_lookup_other b a hab]
    exact hwaita
  · intro k l hk hl
    rw [register_waiting s a b ha hab haroot hwaitb] at hl
    rw [addWait_lookup_other a b k _ hk] at hl
    exact rmWait_not_mem b _ k l hl

theorem transient_wait_resolution_witness :
    ((register 2 (some 1) { rootWin := 99 }).s_transient_wait.lookup 1 = some [2] ∧
      (∀ k l, k ≠ 1 →
        (register 2 (some 1) { rootWin := 99 }).s_transient_wait.lookup k = some l → 2 ∉ l)) ∧
    (tf (register 1 none (register 2 (some 1) { rootWin := 99 })) 2 = some 1 ∧
      (∃ ca, getClient (register 1 none (register 2 (some 1) { rootWin := 99 })) 1 = some ca ∧
        2 ∈ ca.transients) ∧
      (register 1 none (register 2 (some 1) { rootWin := 99 })).s_transient_wait.lookup 1 =
        none) :=
  transient_wait_resolution { rootWin := 99 } 1 2 rfl (by decide) (by decide) rfl rfl

theorem findModal_none (s : St) (l : List Nat)
    (h : ∀ t tc, t ∈ l → getClient s t = some tc → isModal tc = false) :
    findModal s l = none := by
  induction l with
  | nil => rfl
  | cons t rest ih =>
    rw [findModal]
    cases hg : getClient s t with
    | none =>
      exact ih (fun x xc hx hgx => h x xc (List.mem_cons_of_mem _ hx) hgx)
    | some tc =>
      dsimp only
      rw [h t tc (List.mem_cons_self _ _) hg]
      rw [if_neg (by simp)]
      exact ih (fun x xc hx hgx => h x xc (List.mem_cons_of_mem _ hx) hgx)

/-- Common reduction of `setInputFocus` up to the modal scan: with a
valid modal active client owning transients, the result is decided by
the scan of the transient list. -/
theorem setInputFocusOp_modal (fuel : Nat) (f : Nat) (s : St) (fr : MFrame)
    (mc : Nat) (c : MClient)
    (hf : getFrame s f = some fr) (hmc : fr.m_client = some mc)
    (hc : getClient s mc = some c) (hv : c.validc = true)
    (hne : c.transients.isEmpty = false) (hm : isModal c = true) :
    setInputFocusOp (fuel + 1) f s =
      (match findModal s c.transients with
       | some t =>
         match (getClient s t).bind (fun tc => tc.m_win) with
         | some tf2 => setCurrentClientOp fuel tf2 t true s
         | none => (false, s)
       | none => (false, s)) := by
  rw [setInputFocusOp, hf]
  dsimp only
  rw [hmc]
  dsimp only
  rw [hc]
  dsimp only
  rw [if_neg (fun hcon => hcon hv), if_pos (And.intro (by simp [hne]) (by rw [hm]))]

/-- C3: when a frame's active client has a non-empty transient list and
is marked modal, `setInputFocus` is redirected to the first modal
descendant found by scanning that list, by delegating to the
descendant's own frame via `setCurrentClient` instead of focusing the
nominal active client. -/
theorem modal_focus_redirect (fuel : Nat) (f : Nat) (s : St) (fr : MFrame)
    (mc : Nat) (c : MClient) (t tw : Nat)
    (hf : getFrame s f = some fr) (hmc : fr.m_client = some mc)
    (hc : getClient s mc = some c) (hv : c.validc = true)
    (hne : c.transients.isEmpty = false) (hm : isModal c = true)
    (hfind : findModal s c.transients = some t)
    (htw : (getClient s t).bind (fun tc => tc.m_win) = some tw) :
    setInputFocusOp (fuel + 1) f s = setCurrentClientOp fuel tw t true s := by
  rw [setInputFocusOp_modal fuel f s fr mc c hf hmc hc hv hne hm, hfind]
  dsimp only
  rw [htw]

theorem modal_focus_redirect_witness :
    setInputFocusOp 5 10 modalScene = setCurrentClientOp 4 20 2 true modalScene ∧
    (setInputFocusOp 5 10 modalScene).1 = true ∧
    (setInputFocusOp 5 10 modalScene).2.focused = some 2 ∧
    (getFrame (setInputFocusOp 5 10 modalScene).2 20).map MFrame.m_client =
      some (some 2) := by
  refine ⟨modal_focus_redirect 4 10 modalScene _ 1 _ 2 20 rfl rfl rfl rfl rfl rfl rfl rfl,
    ?_, ?_, ?_⟩ <;> decide

/-- C10: when a frame's active client is modal with a non-empty
transient list none of whose members is modal, `setInputFocus` returns
false with the state unchanged — no client is granted input focus, the
direct-focus branch is never reached. -/
theorem modal_scan_no_focus (fuel : Nat) (f : Nat) (s : St) (fr : MFrame)
    (mc : Nat) (c : MClient)
    (hf : getFrame s f = some fr) (hmc : fr.m_client = some mc)
    (hc : getClient s mc = some c) (hv : c.validc = true)
    (hne : c.transients.isEmpty = false) (hm : isModal c = true)
    (hnomodal : ∀ t tc, t ∈ c.transients → getClient s t = some tc → isModal tc = false) :
    setInputFocusOp (fuel + 1) f s = (false, s) ∧
    (setInputFocusOp (fuel + 1) f s).2.focused = s.focused ∧
    (setInputFocusOp (fuel + 1) f s).2.log = s.log := by
  have h1 : setInputFocusOp (fuel + 1) f s = (false, s) := by
    rw [setInputFocusOp_modal fuel f s fr mc c hf hmc hc hv hne hm,
      findModal_none s c.transients hnomodal]
  exact ⟨h1, by rw [h1], by rw [h1]⟩

theorem modal_scan_no_focus_witness :
    setInputFocusOp 5 10 noModalScene = (false, noModalScene) ∧
    (setInputFocusOp 5 10 noModalScene).2.focused = noModalScene.focused ∧
    (setInputFocusOp 5 10 noModalScene).2.log = noModalScene.log := by
  refine modal_scan_no_focus 4 10 noModalScene _ 1 _ rfl rfl rfl rfl rfl rfl ?_
  intro t tc ht hg
  have ht2 : t = 2 := by simpa using ht
  subst ht2
  have h2 : tc = { transient_for := some 1, m_win := some 20 } :=
    Option.some.inj (hg.symm.trans
      (show getClient noModalScene 2 =
        some { transient_for := some 1, m_win := some 20 } from rfl))
  subst h2
  rfl

theorem getFrame_updFrame (s : St) (f f' : Nat) (g : MFrame → MFrame) :
    getFrame (updFrame f g s) f' =
      if f' = f then (getFrame s f').map g else getFrame s f' :=
  lookup_map_if g f f' s.frames

theorem frames_updClient (h : Nat) (g : MClient → MClient) (s : St) :
    (updClient h g s).frames = s.frames := rfl

theorem getFrame_updClient (h : Nat) (g : MClient → MClient) (s : St) (f : Nat) :
    getFrame (updClient h g s) f = getFrame s f := rfl

theorem getClient_updFrame (f : Nat) (g : MFrame → MFrame) (s : St) (x : Nat) :
    getClient (updFrame f g s) x = getClient s x := rfl

theorem getFrame_delFrame_self (f : Nat) (s : St) :
    getFrame (delFrame f s) f = none :=
  lookup_filter_keyne f s.frames

theorem getFrame_delFrame_other (f f' : Nat) (hf : f' ≠ f) (s : St) :
    getFrame (delFrame f s) f' = getFrame s f' :=
  lookup_filter_keyne_other f f' hf s.frames

theorem getClient_delClient_self (h : Nat) (s : St) :
    getClient (delClient h s) h = none :=
  lookup_filter_keyne h s.clients

theorem getClient_delClient_other (h x : Nat) (hx : x ≠ h) (s : St) :
    getClient (delClient h s) x = getClient s x :=
  lookup_filter_keyne_other h x hx s.clients

theorem foldl_updClient_frames (g : MClient → MClient) (l : List Nat) (s : St) :
    (l.foldl (fun st t => updClient t g st) s).frames = s.frames := by
  induction l generalizing s with
  | nil => rfl
  | cons t rest ih => exact (ih (updClient t g s)).trans rfl

theorem foldl_updClient_wait (g : MClient → MClient) (l : List Nat) (s : St) :
    (l.foldl (fun st t => updClient t g st) s).s_transient_wait = s.s_transient_wait := by
  induction l generalizing s with
  | nil => rfl
  | cons t rest ih => exact (ih (updClient t g s)).trans rfl

theorem foldl_updClient_not_mem (g : MClient → MClient) (l : List Nat) (s : St) (x : Nat)
    (hx : x ∉ l) :
    getClient (l.foldl (fun st t => updClient t g st) s) x = getClient s x := by
  induction l generalizing s with
  | nil => rfl
  | cons t rest ih =>
    have hxr : x ∉ rest := fun hmem => hx (List.mem_cons_of_mem _ hmem)
    have hxt : x ≠ t := fun he => hx (he ▸ List.mem_cons_self _ _)
    rw [List.foldl_cons, ih (updClient t g s) hxr, getClient_updClient, if_neg hxt]

theorem foldl_updClient_mem (g : MClient → MClient) (hg : ∀ cc, g (g cc) = g cc)
    (l : List Nat) (s : St) (x : Nat) (hx : x ∈ l) :
    getClient (l.foldl (fun st t => updClient t g st) s) x = (getClient s x).map g := by
  induction l generalizing s with
  | nil => cases hx
  | cons t rest ih =>
    rw [List.foldl_cons]
    by_cases hxr : x ∈ rest
    · rw [ih (updClient t g s) hxr, getClient_updClient]
      by_cases hxt : x = t
      · rw [if_pos hxt]
        cases getClient s x with
        | none => rfl
        | some cx => simp [hg]
      · rw [if_neg hxt]
    · have hxt : x = t := by
        rcases List.mem_cons.mp hx with h1 | h1
        · exact h1
        · exact absurd h1 hxr
      rw [foldl_updClient_not_mem g rest _ x hxr, getClient_updClient, if_pos hxt]

/-- When the active client is not redirect-prone (no transients, or not
modal), `setInputFocus` never touches the frame registry: it either
fails or merely grants focus. -/
theorem focus_frames_safe (fuel : Nat) (f : Nat) (s : St) (fr : MFrame)
    (mc : Nat) (c : MClient)
    (hf : getFrame s f = some fr) (hmc : fr.m_client = some mc)
    (hc : getClient s mc = some c)
    (hsafe : c.transients.isEmpty = true ∨ isModal c = false) :
    (setInputFocusOp fuel f s).2.frames = s.frames := by
  cases fuel with
  | zero => rfl
  | succ fuel =>
    rw [setInputFocusOp, hf]
    dsimp only
    rw [hmc]
    dsimp only
    rw [hc]
    dsimp only
    by_cases hval : c.validc = true
    · rw [if_neg (fun hcon => hcon hval)]
      have hncond : ¬(¬c.transients.isEmpty = true ∧ isModal c = true) := by
        intro hcon
        rcases hsafe with h1 | h1
        · exact hcon.1 h1
        · rw [h1] at hcon
          exact Bool.false_ne_true hcon.2
      rw [if_neg hncond]
      split_ifs <;> rfl
    · rw [if_pos hval]

/-- Execution of `removeClient` when the removed client is not the
active one: no active-pointer shift happens; the client's frame pointer
is cleared, it leaves the list, and the dangling-pointer repair is a
no-op. -/
theorem removeClientOp_nonactive (fuel f c : Nat) (s : St) (fr : MFrame)
    (hf : getFrame s f = some fr)
    (hcw : (getClient s c).bind (fun cc => cc.m_win) = some f)
    (hlen : ¬ fr.m_clientlist.length = 0)
    (hact : ¬ fr.m_client = some c) :
    removeClientOp fuel f c s =
      (true, updFrame f (fun fr2 =>
          if fr2.m_client = some c then
            { fr2 with m_client :=
                if fr2.m_clientlist.isEmpty then none else fr2.m_clientlist.getLast? }
          else fr2)
        (updFrame f (fun fr2 =>
            { fr2 with m_clientlist := fr2.m_clientlist.filter (fun x => x ≠ c) })
          (updClient c (fun cc => { cc with m_win := none }) s))) := by
  unfold removeClientOp
  rw [hf]
  dsimp only
  rw [if_neg (fun hcon => hcon.elim (fun hA => hA hcw) hlen), if_neg hact]

theorem getFrame_logapp (s : St) (es : List MEvent) (f : Nat) :
    getFrame { s with log := s.log ++ es } f = getFrame s f := rfl

theorem getClient_logapp (s : St) (es : List MEvent) (x : Nat) :
    getClient { s with log := s.log ++ es } x = getClient s x := rfl

/-- After a non-active client is removed from its frame, the raise of
the remaining active tab and the focus attempt leave the frame registry
alone, so the frame ends with the filtered tab list and the same active
client. -/
theorem detachTail_frames (fuel f c : Nat) (s1 : St) (fr : MFrame) (mcA : Nat) (cA1 : MClient)
    (hf1 : getFrame s1 f = some fr) (hmc : fr.m_client = some mcA) (hmcc : mcA ≠ c)
    (hcw1 : (getClient s1 c).bind (fun cc => cc.m_win) = some f)
    (hlen : ¬ fr.m_clientlist.length = 0)
    (hA1 : getClient s1 mcA = some cA1)
    (hsafe1 : cA1.transients.isEmpty = true ∨ isModal cA1 = false) :
    getFrame (detachTail fuel f c s1) f =
      some { fr with m_clientlist := fr.m_clientlist.filter (fun x => x ≠ c) } := by
  have hact : ¬ fr.m_client = some c := by
    rw [hmc]
    intro hcon
    exact hmcc (Option.some.inj hcon)
  unfold detachTail
  rw [removeClientOp_nonactive fuel f c s1 fr hf1 hcw1 hlen hact]
  dsimp only
  set F2 := updFrame f (fun fr2 =>
      if fr2.m_client = some c then
        { fr2 with m_client :=
            if fr2.m_clientlist.isEmpty then none else fr2.m_clientlist.getLast? }
      else fr2)
    (updFrame f (fun fr2 =>
        { fr2 with m_clientlist := fr2.m_clientlist.filter (fun x => x ≠ c) })
      (updClient c (fun cc => { cc with m_win := none }) s1)) with hF2def
  have hF2 : getFrame F2 f =
      some { fr with m_clientlist := fr.m_clientlist.filter (fun x => x ≠ c) } := by
    rw [hF2def, getFrame_updFrame, if_pos rfl, getFrame_updFrame, if_pos rfl,
      getFrame_updClient, hf1]
    simp only [Option.map_some']
    rw [if_neg hact]
  rw [hF2]
  simp only [Option.some_bind]
  rw [hmc]
  dsimp only
  have h3 : getClient ({ F2 with log := F2.log ++ [MEvent.clientRaised mcA] } : St) mcA =
      some cA1 := by
    rw [getClient_logapp, hF2def, getClient_updFrame, getClient_updFrame,
      getClient_updClient, if_neg hmcc]
    exact hA1
  have hfr3 := focus_frames_safe fuel f
    ({ F2 with log := F2.log ++ [MEvent.clientRaised mcA] } : St)
    ({ fr with m_clientlist := fr.m_clientlist.filter (fun x => x ≠ c) } : MFrame)
    mcA cA1 (by rw [getFrame_logapp]; exact hF2) hmc h3 hsafe1
  have h4 : getFrame (setInputFocusOp fuel f
      ({ F2 with log := F2.log ++ [MEvent.clientRaised mcA] } : St)).2 f =
      getFrame ({ F2 with log := F2.log ++ [MEvent.clientRaised mcA] } : St) f := by
    unfold getFrame
    rw [hfr3]
  rw [h4, getFrame_logapp, hF2, hmc]

/-- C9: `detachClient` refuses — returning false with the state
untouched — when the client's frame pointer is not this frame or the
frame has at most one client; and detaching a non-active client from a
3-client frame whose active client is not redirect-prone leaves the
frame with the same tab order minus the removed client and the same
active client. -/
theorem detachClient_refusal_and_order (fuel f c : Nat) (s : St) (fr : MFrame)
    (hf : getFrame s f = some fr) :
    (((getClient s c).bind (fun cc => cc.m_win) ≠ some f ∨ fr.m_clientlist.length ≤ 1) →
      detachClientOp fuel f c s = (false, s)) ∧
    (∀ mcA cA, fr.m_client = some mcA → mcA ≠ c →
      (getClient s c).bind (fun cc => cc.m_win) = some f →
      fr.m_clientlist.length = 3 →
      getClient s mcA = some cA →
      (cA.transients.isEmpty = true ∨ isModal cA = false) →
      (detachClientOp fuel f c s).1 = true ∧
      getFrame (detachClientOp fuel f c s).2 f =
        some { fr with m_clientlist := fr.m_clientlist.filter (fun x => x ≠ c) }) := by
  constructor
  · intro hcond
    unfold detachClientOp
    rw [hf]
    dsimp only
    rw [if_pos hcond]
  · intro mcA cA hmc hmcc hcw hlen3 hA hsafe
    have hguard : ¬((getClient s c).bind (fun cc => cc.m_win) ≠ some f ∨
        fr.m_clientlist.length ≤ 1) := by
      intro hcon
      rcases hcon with h1 | h1
      · exact h1 hcw
      · rw [hlen3] at h1
        omega
    have hlen0 : ¬ fr.m_clientlist.length = 0 := by
      rw [hlen3]
      omega
    unfold detachClientOp
    rw [hf]
    dsimp only
    rw [if_neg hguard]
    dsimp only
    refine ⟨rfl, ?_⟩
    cases haft : afterIn fr.m_clientlist c with
    | none =>
      exact detachTail_frames fuel f c s fr mcA cA hf hmc hmcc hcw hlen0 hA hsafe
    | some aft =>
      dsimp only
      by_cases hma : mcA = aft
      · refine detachTail_frames fuel f c _ fr mcA
          ({ cA with group_left :=
            if fr.m_clientlist.head? = some c then 0
            else (beforeIn fr.m_clientlist c).getD 0 }) (hf) hmc hmcc ?_ hlen0 ?_ ?_
        · rw [getClient_updClient]
          by_cases hca : c = aft
          · rw [if_pos hca]
            cases hgc : getClient s c with
            | none =>
              rw [hgc] at hcw
              exact absurd hcw (by simp)
            | some cc0 =>
              rw [hgc] at hcw
              exact hcw
          · rw [if_neg hca]
            exact hcw
        · rw [getClient_updClient, if_pos hma, hA]
          rfl
        · exact hsafe
      · refine detachTail_frames fuel f c _ fr mcA cA (hf) hmc hmcc ?_ hlen0 ?_ hsafe
        · rw [getClient_updClient]
          by_cases hca : c = aft
          · rw [if_pos hca]
            cases hgc : getClient s c with
            | none =>
              rw [hgc] at hcw
              exact absurd hcw (by simp)
            | some cc0 =>
              rw [hgc] at hcw
              exact hcw
          · rw [if_neg hca]
            exact hcw
        · rw [getClient_updClient, if_neg hma]
          exact hA

/-- C9 counterexample: detaching the non-active client 1 from a
3-client frame whose active client 2 is modal with its modal transient
3 tabbed in the same frame makes the trailing focus pass re-delegate
and switch the active client to 3 — "the active client unchanged"
fails without a side condition. -/
theorem detachClient_modal_switches_active :
    (getFrame detachModalScene 10).map MFrame.m_client = some (some 2) ∧
    (detachClientOp 5 10 1 detachModalScene).1 = true ∧
    (getFrame (detachClientOp 5 10 1 detachModalScene).2 10).map MFrame.m_client =
      some (some 3) := by
  decide

theorem detachClient_refusal_and_order_witness :
    detachClientOp 5 10 5 detachSafeScene = (false, detachSafeScene) ∧
    ((detachClientOp 5 10 1 detachSafeScene).1 = true ∧
      getFrame (detachClientOp 5 10 1 detachSafeScene).2 10 =
        some { m_client := some 2, m_clientlist := [1, 2, 3].filter (fun x => x ≠ 1) }) := by
  constructor
  · exact (detachClient_refusal_and_order 5 10 5 detachSafeScene _ rfl).1 (Or.inl (by decide))
  · exact (detachClient_refusal_and_order 5 10 1 detachSafeScene _ rfl).2 2 _ rfl (by decide)
      rfl rfl rfl (Or.inr rfl)

/-- C4: what `attachClient` really does.  Donor case: the donor frame's
whole client list is spliced (concatenated) onto the end of this frame's
list, every migrated client's frame pointer is re-pointed here, the
donor frame is destroyed — but the group-left pointer is written only on
the argument client (set to this frame's previous last tab), every other
client's group-left is untouched, and the active client of this frame is
NOT changed to the attached client.  Frameless case: the client is
appended, again without touching the active client. -/
theorem attachClient_splice (f c : Nat) (s : St) (fr : MFrame) (cc : MClient)
    (hf : getFrame s f = some fr) (hc : getClient s c = some cc) :
    (∀ ow owr, cc.m_win = some ow → ¬ ow = f → getFrame s ow = some owr →
      (∀ x, x ∈ owr.m_clientlist → (getClient s x).isSome) →
      ∃ fr2, getFrame (attachClientOp f c s) f = some fr2 ∧
        fr2.m_clientlist = fr.m_clientlist ++ owr.m_clientlist ∧
        fr2.m_client = fr.m_client ∧
        getFrame (attachClientOp f c s) ow = none ∧
        (∀ x, x ∈ owr.m_clientlist →
          (getClient (attachClientOp f c s) x).map (fun y => y.m_win) = some (some f)) ∧
        (getClient (attachClientOp f c s) c).map (fun y => y.group_left) =
          some (fr.m_clientlist.getLastD 0) ∧
        (∀ x, ¬ x = c →
          (getClient (attachClientOp f c s) x).map (fun y => y.group_left) =
            (getClient s x).map (fun y => y.group_left))) ∧
    (cc.m_win = none →
      ∃ fr2, getFrame (attachClientOp f c s) f = some fr2 ∧
        fr2.m_clientlist = fr.m_clientlist ++ [c] ∧
        fr2.m_client = fr.m_client) := by
  constructor
  · intro ow owr hcw hof how hreg
    unfold attachClientOp
    rw [hf]
    dsimp only
    rw [hc]
    dsimp only
    rw [if_neg (fun hcon => hof (Option.some.inj ((hcw.symm.trans hcon))))]
    rw [hcw]
    dsimp only
    rw [getFrame_updClient, how]
    dsimp only
    have hfow : ¬ f = ow := fun hcon => hof hcon.symm
    set S2 := owr.m_clientlist.foldl
      (fun st x => updClient x (fun y => { y with m_win := some f }) st)
      (updClient c (fun x => { x with group_left := fr.m_clientlist.getLastD 0 }) s)
      with hS2def
    set S5 := delFrame ow
      (updFrame ow (fun fr2 => { fr2 with m_clientlist := [], m_client := none })
        (updFrame f (fun fr2 => { fr2 with m_clientlist := fr2.m_clientlist ++ owr.m_clientlist })
          S2)) with hS5def
    have hS2frames : getFrame S2 f = getFrame s f := by
      unfold getFrame
      rw [hS2def, foldl_updClient_frames]
      rfl
    have hframe5 : getFrame S5 f =
        some { fr with m_clientlist := fr.m_clientlist ++ owr.m_clientlist } := by
      rw [hS5def, getFrame_delFrame_other ow f hfow, getFrame_updFrame, if_neg hfow,
        getFrame_updFrame, if_pos rfl, hS2frames, hf]
      rfl
    have hframeow : getFrame S5 ow = none := by
      rw [hS5def]
      exact getFrame_delFrame_self ow _
    have hclients5 : ∀ x, getClient S5 x = getClient S2 x := fun x => rfl
    have hgc2mem : ∀ x, x ∈ owr.m_clientlist →
        (getClient S2 x).map (fun y => y.m_win) = some (some f) := by
      intro x hx
      have hsome1 : (getClient (updClient c
          (fun x => { x with group_left := fr.m_clientlist.getLastD 0 }) s) x).isSome := by
        rw [getClient_updClient]
        by_cases hxc : x = c
        · rw [if_pos hxc, hxc, hc]
          rfl
        · rw [if_neg hxc]
          exact hreg x hx
      obtain ⟨z, hz⟩ := Option.isSome_iff_exists.mp hsome1
      rw [hS2def, foldl_updClient_mem (fun y => { y with m_win := some f })
        (fun cc2 => rfl) owr.m_clientlist _ x hx, hz]
      rfl
    have hgc2c : (getClient S2 c).map (fun y => y.group_left) =
        some (fr.m_clientlist.getLastD 0) := by
      rw [hS2def]
      by_cases hcm : c ∈ owr.m_clientlist
      · rw [foldl_updClient_mem (fun y => { y with m_win := some f })
          (fun cc2 => rfl) owr.m_clientlist _ c hcm, getClient_updClient, if_pos rfl, hc]
        rfl
      · rw [foldl_updClient_not_mem (fun y => { y with m_win := some f })
          owr.m_clientlist _ c hcm, getClient_updClient, if_pos rfl, hc]
        rfl
    have hgc2gl : ∀ x, ¬ x = c →
        (getClient S2 x).map (fun y => y.group_left) =
          (getClient s x).map (fun y => y.group_left) := by
      intro x hxc
      rw [hS2def]
      by_cases hxm : x ∈ owr.m_clientlist
      · rw [foldl_updClient_mem (fun y => { y with m_win := some f })
          (fun cc2 => rfl) owr.m_clientlist _ x hxm, getClient_updClient, if_neg hxc]
        cases getClient s x with
        | none => rfl
        | some z => rfl
      · rw [foldl_updClient_not_mem (fun y => { y with m_win := some f })
          owr.m_clientlist _ x hxm, getClient_updClient, if_neg hxc]
    cases hmcl : fr.m_client with
    | some mc =>
      have hbind : (getFrame S5 f).bind (fun fr2 => fr2.m_client) = some mc := by
        rw [hframe5]
        simp only [Option.some_bind]
        exact hmcl
      rw [hbind]
      dsimp only
      refine ⟨{ fr with m_clientlist := fr.m_clientlist ++ owr.m_clientlist }, ?_, rfl, ?_, ?_, ?_, ?_, ?_⟩
      · rw [getFrame_logapp]
        exact hframe5
      · exact hmcl.symm ▸ rfl
      · rw [getFrame_logapp]
        exact hframeow
      · intro x hx
        rw [getClient_logapp, hclients5 x]
        exact hgc2mem x hx
      · rw [getClient_logapp, hclients5 c]
        exact hgc2c
      · intro x hxc
        rw [getClient_logapp, hclients5 x]
        exact hgc2gl x hxc
    | none =>
      have hbind : (getFrame S5 f).bind (fun fr2 => fr2.m_client) = none := by
        rw [hframe5]
        simp only [Option.some_bind]
        exact hmcl
      rw [hbind]
      dsimp only
      refine ⟨{ fr with m_clientlist := fr.m_clientlist ++ owr.m_clientlist }, hframe5, rfl,
        by dsimp only; rw [hmcl], hframeow, ?_, ?_, ?_⟩
      · intro x hx
        rw [hclients5 x]
        exact hgc2mem x hx
      · rw [hclients5 c]
        exact hgc2c
      · intro x hxc
        rw [hclients5 x]
        exact hgc2gl x hxc
  · intro hcw
    unfold attachClientOp
    rw [hf]
    dsimp only
    rw [hc]
    dsimp only
    rw [if_neg (fun hcon => by rw [hcw] at hcon; exact Option.noConfusion hcon)]
    rw [hcw]
    dsimp only
    have hframe3 : getFrame (updFrame f
        (fun fr2 => { fr2 with m_clientlist := fr2.m_clientlist ++ [c] })
        (updClient c (fun x => { x with m_win := some f })
          (updClient c (fun x => { x with group_left := fr.m_clientlist.getLastD 0 }) s))) f =
        some { fr with m_clientlist := fr.m_clientlist ++ [c] } := by
      rw [getFrame_updFrame, if_pos rfl, getFrame_updClient, getFrame_updClient, hf]
      rfl
    cases hmcl : fr.m_client with
    | some mc =>
      have hbind : (getFrame (updFrame f
          (fun fr2 => { fr2 with m_clientlist := fr2.m_clientlist ++ [c] })
          (updClient c (fun x => { x with m_win := some f })
            (updClient c (fun x => { x with group_left := fr.m_clientlist.getLastD 0 }) s))) f).bind
            (fun fr2 => fr2.m_client) = some mc := by
        rw [hframe3]
        simp only [Option.some_bind]
        exact hmcl
      rw [hbind]
      dsimp only
      refine ⟨{ fr with m_clientlist := fr.m_clientlist ++ [c] }, ?_, rfl, ?_⟩
      · rw [getFrame_logapp]
        exact hframe3
      · exact hmcl.symm ▸ rfl
    | none =>
      have hbind : (getFrame (updFrame f
          (fun fr2 => { fr2 with m_clientlist := fr2.m_clientlist ++ [c] })
          (updClient c (fun x => { x with m_win := some f })
            (updClient c (fun x => { x with group_left := fr.m_clientlist.getLastD 0 }) s))) f).bind
            (fun fr2 => fr2.m_client) = none := by
        rw [hframe3]
        simp only [Option.some_bind]
        exact hmcl
      rw [hbind]
      dsimp only
      exact ⟨{ fr with m_clientlist := fr.m_clientlist ++ [c] }, hframe3, rfl,
        by dsimp only; rw [hmcl]⟩

/-- C4 counterexample: after `attachClient(client)` the attached client
is NOT this frame's active client (the active pointer stays on the old
tab; only `m_client->raise()` runs on it), and when the argument is not
the donor's first tab the first migrated client's group-left pointer is
not re-linked to this frame's previous last tab (only the argument
client's pointer is written). -/
theorem attachClient_active_cex :
    (getFrame attachScene 10).map MFrame.m_client = some (some 1) ∧
    (getFrame (attachClientOp 10 2 attachScene) 10).map MFrame.m_client = some (some 1) ∧
    ¬((getFrame (attachClientOp 10 2 attachScene) 10).map MFrame.m_client = some (some 2)) ∧
    (getClient (attachClientOp 10 3 attachScene) 2).map MClient.group_left = some 0 ∧
    ¬((getClient (attachClientOp 10 3 attachScene) 2).map MClient.group_left = some 1) ∧
    (getClient (attachClientOp 10 3 attachScene) 3).map MClient.group_left = some 1 := by
  decide

theorem attachClient_splice_witness :
    ∃ fr2, getFrame (attachClientOp 10 2 attachScene) 10 = some fr2 ∧
      fr2.m_clientlist = [1] ++ [2, 3] ∧
      fr2.m_client = some 1 ∧
      getFrame (attachClientOp 10 2 attachScene) 20 = none ∧
      (∀ x, x ∈ [2, 3] →
        (getClient (attachClientOp 10 2 attachScene) x).map (fun y => y.m_win) =
          some (some 10)) ∧
      (getClient (attachClientOp 10 2 attachScene) 2).map (fun y => y.group_left) =
        some ([1].getLastD 0) ∧
      (∀ x, ¬ x = 2 →
        (getClient (attachClientOp 10 2 attachScene) x).map (fun y => y.group_left) =
          (getClient attachScene x).map (fun y => y.group_left)) := by
  exact (attachClient_splice 10 2 attachScene _ _ rfl rfl).1 20 _ rfl (by decide) rfl
    (fun x hx => by
      have h2 : x = 2 ∨ x = 3 := by simpa using hx
      rcases h2 with h1 | h1 <;> subst h1 <;> rfl)

theorem layer_view_updFrame (f : Nat) (g : MFrame → MFrame)
    (hg : ∀ fr2, (g fr2).m_layernum = fr2.m_layernum) (s : St) (x : Nat) :
    (getFrame (updFrame f g s) x).map MFrame.m_layernum =
      (getFrame s x).map MFrame.m_layernum := by
  rw [getFrame_updFrame]
  by_cases hx : x = f
  · rw [if_pos hx]
    cases getFrame s x <;> simp [hg]
  · rw [if_neg hx]

/-- `raiseFluxboxWindow` restacks windows but never writes a layer
number: every frame keeps its layer. -/
theorem raiseFW_layer_view (fuel : Nat) :
    ∀ f s x, (getFrame (raiseFW fuel f s) x).map MFrame.m_layernum =
      (getFrame s x).map MFrame.m_layernum := by
  induction fuel with
  | zero =>
    intro f s x
    rfl
  | succ fuel ih =>
    intro f s x
    rw [raiseFW]
    cases hf : getFrame s f with
    | none => rfl
    | some fr =>
      dsimp only
      by_cases hop : fr.oplock = true
      · rw [if_pos hop]
      · rw [if_neg hop]
        have hstep : ∀ (l : List Nat) (st : St),
            (getFrame (l.foldl (fun st t =>
              match (getClient st t).bind (fun tc => tc.m_win) with
              | some w =>
                match getFrame st w with
                | some wfr => if ¬ wfr.iconic then raiseFW fuel w st else st
                | none => st
              | none => st) st) x).map MFrame.m_layernum =
            (getFrame st x).map MFrame.m_layernum := by
          intro l
          induction l with
          | nil =>
            intro st
            rfl
          | cons t rest ihl =>
            intro st
            rw [List.foldl_cons, ihl]
            cases h1 : (getClient st t).bind (fun tc => tc.m_win) with
            | none => rfl
            | some w =>
              dsimp only
              cases h2 : getFrame st w with
              | none => rfl
              | some wfr =>
                dsimp only
                by_cases h3 : ¬ wfr.iconic = true
                · rw [if_pos h3]
                  exact ih w st x
                · rw [if_neg h3]
        rw [layer_view_updFrame f (fun fr2 => { fr2 with oplock := false })
          (fun fr2 => rfl), hstep]
        by_cases hic : ¬ fr.iconic = true
        · rw [if_pos hic, getFrame_logapp,
            layer_view_updFrame f (fun fr2 => { fr2 with oplock := true }) (fun fr2 => rfl)]
        · rw [if_neg hic,
            layer_view_updFrame f (fun fr2 => { fr2 with oplock := true }) (fun fr2 => rfl)]

/-- C2 counterexample: on the leaf → mid → root chain, `moveToLayer`
resolves the root and copies the layer to the root's DIRECT transient's
frame only — the visible leaf at depth two keeps its old layer — and
`raiseFluxboxWindow` raises all three frames without assigning any
layer number, so mid does not end with root's layer. -/
theorem moveToLayer_depth_cex :
    (getFrame (moveToLayerOp 5 30 chainScene) 10).map MFrame.m_layernum = some 5 ∧
    (getFrame (moveToLayerOp 5 30 chainScene) 20).map MFrame.m_layernum = some 5 ∧
    (getFrame (moveToLayerOp 5 30 chainScene) 30).map MFrame.m_layernum = some 2 ∧
    ¬((getFrame (moveToLayerOp 5 30 chainScene) 30).map MFrame.m_layernum = some 5) ∧
    (raiseFW 3 10 chainScene).log =
      [MEvent.frameRaised 10, MEvent.frameRaised 20, MEvent.frameRaised 30] ∧
    ¬((getFrame (raiseFW 3 10 chainScene) 20).map MFrame.m_layernum =
        (getFrame (raiseFW 3 10 chainScene) 10).map MFrame.m_layernum) := by
  decide

/-- C2: what raise/moveToLayer really do.  `raiseFluxboxWindow` never
writes a layer number anywhere (for every fuel, frame, state and frame
handle the layer view is unchanged); on the leaf → mid → root chain it
restacks root's frame first and then the descendants' frames depth
first.  `moveToLayer` resolves the chain root and assigns the clamped
layer to the root's frame and to the frames of the root's DIRECT
visible transients only: launched from the leaf's frame it layers
frames 10 and 20 but leaves the visible depth-two leaf frame 30 on its
old layer. -/
theorem stacking_propagation :
    (∀ fuel f s x, (getFrame (raiseFW fuel f s) x).map MFrame.m_layernum =
      (getFrame s x).map MFrame.m_layernum) ∧
    (raiseFW 3 10 chainScene).log =
      [MEvent.frameRaised 10, MEvent.frameRaised 20, MEvent.frameRaised 30] ∧
    rootOf chainScene 4 3 = 1 ∧
    (getFrame (moveToLayerOp 5 30 chainScene) 10).map MFrame.m_layernum = some 5 ∧
    (getFrame (moveToLayerOp 5 30 chainScene) 20).map MFrame.m_layernum = some 5 ∧
    (getFrame (moveToLayerOp 5 30 chainScene) 30).map MFrame.m_layernum = some 2 :=
  ⟨fun fuel f s x => raiseFW_layer_view fuel f s x,
    by decide, by decide, by decide, by decide, by decide⟩

/-- The focus operations never touch the client registry. -/
theorem clients_focusOps (fuel : Nat) :
    (∀ f s, (setInputFocusOp fuel f s).2.clients = s.clients) ∧
    (∀ f c b s, (setCurrentClientOp fuel f c b s).2.clients = s.clients) := by
  induction fuel with
  | zero => exact ⟨fun f s => rfl, fun f c b s => rfl⟩
  | succ fuel ih =>
    constructor
    · intro f s
      rw [setInputFocusOp]
      repeat' split
      any_goals rfl
      all_goals exact ih.2 _ _ _ _
    · intro f c b s
      rw [setCurrentClientOp]
      repeat' split
      any_goals rfl
      all_goals exact (ih.1 _ _).trans rfl

theorem clients_nextClientOp (fuel f : Nat) (s : St) :
    (nextClientOp fuel f s).clients = s.clients := by
  unfold nextClientOp
  dsimp only
  repeat' split
  any_goals rfl
  all_goals exact ((clients_focusOps fuel).1 _ _).trans rfl

theorem clients_prevClientOp (fuel f : Nat) (s : St) :
    (prevClientOp fuel f s).clients = s.clients := by
  unfold prevClientOp
  dsimp only
  repeat' split
  any_goals rfl
  all_goals exact ((clients_focusOps fuel).1 _ _).trans rfl

/-- `removeClient` touches the registry only at the removed client's
record (its frame pointer): every other client's record survives
verbatim. -/
theorem getClient_removeClientOp (fuel f c : Nat) (s : St) (x : Nat) (hx : ¬ x = c) :
    getClient (removeClientOp fuel f c s).2 x = getClient s x := by
  unfold removeClientOp
  cases hf : getFrame s f with
  | none => rfl
  | some fr =>
    dsimp only
    split_ifs with hg h1 h2
    · rfl
    · rw [getClient_updFrame, getClient_updFrame, getClient_updClient, if_neg hx]
      unfold getClient
      rw [clients_prevClientOp]
    · rw [getClient_updFrame, getClient_updFrame, getClient_updClient, if_neg hx]
      unfold getClient
      rw [clients_nextClientOp]
    · rw [getClient_updFrame, getClient_updFrame, getClient_updClient, if_neg hx]

/-- Facts about the destructor tail: every transient of the dying
client ends orphaned but alive, no surviving client's transient list
changes, the dying client leaves the registry, and the wait list keeps
neither the entry keyed by the handle nor any reference to it. -/
theorem unregisterTail_facts (fuel h : Nat) (c : MClient) (s1 : St)
    (hth : ∀ t, t ∈ c.transients → ¬ t = h ∧ (getClient s1 t).isSome) :
    (∀ t, t ∈ c.transients → ∃ tc, getClient (unregisterTail fuel h c s1) t = some tc ∧
      tc.transient_for = none) ∧
    (∀ x, ¬ x = h →
      (getClient (unregisterTail fuel h c s1) x).map (fun y => y.transients) =
        (getClient s1 x).map (fun y => y.transients)) ∧
    getClient (unregisterTail fuel h c s1) h = none ∧
    (unregisterTail fuel h c s1).s_transient_wait.lookup h = none ∧
    (∀ k l, (unregisterTail fuel h c s1).s_transient_wait.lookup k = some l → h ∉ l) := by
  unfold unregisterTail
  dsimp only
  set S2 := c.transients.foldl
    (fun st t => updClient t (fun tc => { tc with transient_for := none }) st) s1 with hS2def
  cases hcw : c.m_win with
  | some f =>
    dsimp only
    have hS4x : ∀ x, ¬ x = h →
        getClient (removeClientOp fuel f h (updClient h
          (fun cc => { cc with accepts_input := false, send_focus_message := false }) S2)).2 x =
        getClient S2 x := by
      intro x hx
      rw [getClient_removeClientOp fuel f h _ x hx, getClient_updClient, if_neg hx]
    refine ⟨?_, ?_, getClient_delClient_self h _, eraseWait_lookup_self h _, ?_⟩
    · intro t ht
      obtain ⟨hth1, hth2⟩ := hth t ht
      have h2 : getClient S2 t =
          (getClient s1 t).map (fun tc => { tc with transient_for := none }) := by
        rw [hS2def]
        exact foldl_updClient_mem (fun tc => { tc with transient_for := none }) (fun cc => rfl) _ _ t ht
      obtain ⟨z, hz⟩ := Option.isSome_iff_exists.mp hth2
      refine ⟨{ z with transient_for := none }, ?_, rfl⟩
      rw [getClient_delClient_other h t hth1, getClient_eraseWait, getClient_rmWait,
        hS4x t hth1, h2, hz]
      rfl
    · intro x hx
      rw [getClient_delClient_other h x hx, getClient_eraseWait, getClient_rmWait,
        hS4x x hx, hS2def]
      by_cases hxm : x ∈ c.transients
      · rw [foldl_updClient_mem (fun tc => { tc with transient_for := none }) (fun cc => rfl) _ _ x hxm]
        cases getClient s1 x <;> rfl
      · rw [foldl_updClient_not_mem (fun tc => { tc with transient_for := none }) _ _ x hxm]
    · intro k l hl
      have hl2 : (eraseTransientWait h (removeTransientFromWaitingList h
          (removeClientOp fuel f h (updClient h
            (fun cc => { cc with accepts_input := false, send_focus_message := false })
            S2)).2)).s_transient_wait.lookup k = some l := hl
      by_cases hk : k = h
      · subst hk
        rw [eraseWait_lookup_self] at hl2
        exact Option.noConfusion hl2
      · rw [eraseWait_lookup_other h k hk] at hl2
        exact rmWait_not_mem h _ k l hl2
  | none =>
    dsimp only
    have hS4x : ∀ x, ¬ x = h →
        getClient (updClient h
          (fun cc => { cc with accepts_input := false, send_focus_message := false }) S2) x =
        getClient S2 x := by
      intro x hx
      rw [getClient_updClient, if_neg hx]
    refine ⟨?_, ?_, getClient_delClient_self h _, eraseWait_lookup_self h _, ?_⟩
    · intro t ht
      obtain ⟨hth1, hth2⟩ := hth t ht
      have h2 : getClient S2 t =
          (getClient s1 t).map (fun tc => { tc with transient_for := none }) := by
        rw [hS2def]
        exact foldl_updClient_mem (fun tc => { tc with transient_for := none }) (fun cc => rfl) _ _ t ht
      obtain ⟨z, hz⟩ := Option.isSome_iff_exists.mp hth2
      refine ⟨{ z with transient_for := none }, ?_, rfl⟩
      rw [getClient_delClient_other h t hth1, getClient_eraseWait, getClient_rmWait,
        hS4x t hth1, h2, hz]
      rfl
    · intro x hx
      rw [getClient_delClient_other h x hx, getClient_eraseWait, getClient_rmWait,
        hS4x x hx, hS2def]
      by_cases hxm : x ∈ c.transients
      · rw [foldl_updClient_mem (fun tc => { tc with transient_for := none }) (fun cc => rfl) _ _ x hxm]
        cases getClient s1 x <;> rfl
      · rw [foldl_updClient_not_mem (fun tc => { tc with transient_for := none }) _ _ x hxm]
    · intro k l hl
      have hl2 : (eraseTransientWait h (removeTransientFromWaitingList h
          (updClient h
            (fun cc => { cc with accepts_input := false, send_focus_message := false })
            S2))).s_transient_wait.lookup k = some l := hl
      by_cases hk : k = h
      · subst hk
        rw [eraseWait_lookup_self] at hl2
        exact Option.noConfusion hl2
      · rw [eraseWait_lookup_other h k hk] at hl2
        exact rmWait_not_mem h _ k l hl2

/-- C6: destroying a WinClient orphans every former member of its
transient set — each ends with a cleared `transient_for` while staying
registered, so none of them is destroyed —, removes the dead client
from its parent's transient set, drops it from the registry, and purges
every wait-list entry keyed by its handle or naming it. -/
theorem destructor_orphans (s : St) (h : Nat) (c : MClient)
    (hc : getClient s h = some c) (hne : c.transients ≠ [])
    (hth : ∀ t, t ∈ c.transients → ¬ t = h ∧ (getClient s t).isSome)
    (hpar : ∀ p, c.transient_for = some p → ¬ p = h) :
    (∀ t, t ∈ c.transients → ∃ tc, getClient (unregister h s) t = some tc ∧
      tc.transient_for = none) ∧
    (∀ p pc, c.transient_for = some p → getClient (unregister h s) p = some pc →
      h ∉ pc.transients) ∧
    getClient (unregister h s) h = none ∧
    (unregister h s).s_transient_wait.lookup h = none ∧
    (∀ k l, (unregister h s).s_transient_wait.lookup k = some l → h ∉ l) := by
  unfold unregister
  rw [hc]
  dsimp only
  cases hctf : c.transient_for with
  | none =>
    dsimp only
    have hfacts := unregisterTail_facts (s.clients.length + 1) h c s hth
    refine ⟨hfacts.1, ?_, hfacts.2.2.1, hfacts.2.2.2.1, hfacts.2.2.2.2⟩
    intro p pc hp
    exact absurd hp (by simp)
  | some p0 =>
    dsimp only
    have hp0h : ¬ p0 = h := hpar p0 hctf
    set SA := updClient p0
      (fun pc => { pc with transients := pc.transients.filter (fun x => x ≠ h) }) s
      with hSAdef
    set SB := if c.m_modal then removeModal p0 SA else SA with hSBdef
    set S1 := updClient h (fun cc => { cc with transient_for := none }) SB with hS1def
    have hth1 : ∀ t, t ∈ c.transients → ¬ t = h ∧ (getClient S1 t).isSome := by
      intro t ht
      obtain ⟨h1, h2⟩ := hth t ht
      refine ⟨h1, ?_⟩
      rw [hS1def, getClient_isSome_updClient, hSBdef]
      split_ifs with hm
      · unfold removeModal
        rw [getClient_isSome_updClient, hSAdef, getClient_isSome_updClient]
        exact h2
      · rw [hSAdef, getClient_isSome_updClient]
        exact h2
    have hfacts := unregisterTail_facts (s.clients.length + 1) h c S1 hth1
    refine ⟨hfacts.1, ?_, hfacts.2.2.1, hfacts.2.2.2.1, hfacts.2.2.2.2⟩
    intro p pc hp hpc
    have hpp : p0 = p := Option.some.inj hp
    subst hpp
    have hview := hfacts.2.1 p0 hp0h
    rw [hpc] at hview
    have hS1p : (getClient S1 p0).map (fun y => y.transients) =
        (getClient s p0).map (fun y => y.transients.filter (fun x => x ≠ h)) := by
      rw [hS1def, getClient_updClient, if_neg hp0h, hSBdef]
      split_ifs with hm
      · unfold removeModal
        rw [getClient_updClient, if_pos rfl, hSAdef, getClient_updClient, if_pos rfl]
        cases getClient s p0 <;> rfl
      · rw [hSAdef, getClient_updClient, if_pos rfl]
        cases getClient s p0 <;> rfl
    rw [hS1p] at hview
    cases hgs : getClient s p0 with
    | none =>
      rw [hgs] at hview
      exact absurd hview (by simp)
    | some z =>
      rw [hgs] at hview
      have hz : pc.transients = z.transients.filter (fun x => x ≠ h) :=
        Option.some.inj hview
      rw [hz]
      simp [List.mem_filter]

theorem destructor_orphans_witness :
    (∀ t, t ∈ [2, 3] → ∃ tc, getClient (unregister 1 unregScene) t = some tc ∧
      tc.transient_for = none) ∧
    (∀ p pc, some 4 = some p → getClient (unregister 1 unregScene) p = some pc →
      1 ∉ pc.transients) ∧
    getClient (unregister 1 unregScene) 1 = none ∧
    (unregister 1 unregScene).s_transient_wait.lookup 1 = none ∧
    (∀ k l, (unregister 1 unregScene).s_transient_wait.lookup k = some l → 1 ∉ l) := by
  exact destructor_orphans unregScene 1 _ rfl (by decide)
    (fun t ht => by
      have h2 : t = 2 ∨ t = 3 := by simpa using ht
      rcases h2 with h1 | h1 <;> subst h1 <;> exact ⟨by decide, rfl⟩)
    (fun p hp => by
      have h4 : 4 = p := Option.some.inj hp
      subst h4
      decide)
